import Mathlib

/-!
Price reconciliation and cost deltas of `plan/format.go`.

A shallow embedding of the cost table builder of `plan/format.go`
(`FormatTable`, `addTableRow`, `formatAddress`, `formatDelta`,
`formatDescription`, `findBeforePrice`) together with theorems about it.

Conventions of the embedding.

* A Go `string` is a Lean `String`; the `strings` functions the program calls are
  written out on the character list, by structural recursion.
* A Go `map[PriceID]*Price` is the list of its entries in the order in which a
  `range` statement visits them; a map has pairwise distinct keys (`ByID.WF`),
  and a `*Price` is an `Option Price`, `none` being the nil pointer. Go fixes no
  order for `range` over a map: the statements quantify over every list, hence
  over every order, one order being used for all the `range` statements over one
  map value.
* `float64` arithmetic is exact arithmetic over `ℚ`: rounding, infinities and NaN
  are outside the embedding. `strconv.ParseFloat` and the text formatters of the
  imported libraries are fields of `Lib`.
* A Go run-time panic is the `error` case of `Except Fault`.
* `tableData` keeps, for a row built by `addTableRow`, the three numbers its cost
  cells are formatted from; `Row.cells` gives the five strings of the program.
-/

namespace plan

/-! ## Library functions -/

namespace strings

/-- Character-list form of `strings.Split(s, sep)` for a one-character separator:
the maximal runs between separators, an empty input giving one empty run. -/
def splitChars (sep : Char) : List Char → List (List Char)
  | [] => [[]]
  | c :: cs =>
    if c = sep then [] :: splitChars sep cs
    else
      match splitChars sep cs with
      | [] => [[c]]
      | seg :: rest => (c :: seg) :: rest

/-- The call `strings.Split(s, sep)` with a one-character separator. -/
def Split (s : String) (sep : Char) : List String :=
  (splitChars sep s.data).map String.mk

/-- The call `strings.SplitN(s, sep, 2)` with a one-character separator: the text
before the first separator and, when there is a separator, the text after it. -/
def SplitN2 (s : String) (sep : Char) : List String :=
  match s.data.dropWhile (fun c => c != sep) with
  | [] => [String.mk (s.data.takeWhile (fun c => c != sep))]
  | _ :: rest => [String.mk (s.data.takeWhile (fun c => c != sep)), String.mk rest]

/-- The call `strings.HasPrefix(s, p)`. -/
def HasPrefix (s p : String) : Bool :=
  p.data.isPrefixOf s.data

/-- The call `strings.Join(elems, sep)`. -/
def Join (elems : List String) (sep : String) : String :=
  String.mk (List.intercalate sep.data (elems.map String.data))

end strings

/-! ## Data model -/

/-- Modelled from the spec: the declaration of `prices.PriceID` (package `prices`)
is missing. It is a comparable composite key that includes the colon-delimited
`UsageOperation`; the service code stands for the rest of the key. -/
structure PriceID where
  ServiceCode : String
  UsageOperation : String
deriving DecidableEq, Repr

/-- Modelled from the spec: the declaration of the dimension type of
`prices.Price` is missing. One tier of a rate schedule, with its rate as a
decimal written in a string. -/
structure PriceDimension where
  PricePerUnit : String
deriving DecidableEq, Repr

/-- Modelled from the spec: the declaration of `prices.Price` is missing. It has a
`UsageOperation` string and an ordered sequence of dimensions. -/
structure Price where
  UsageOperation : String
  Dimensions : List PriceDimension
deriving DecidableEq, Repr

/-- Modelled from the spec: the declaration of `prices.ByID`, a
`map[PriceID]*Price`, is missing. The entries are listed in `range` order and a
nil pointer is `none`. -/
abbrev ByID := List (PriceID × Option Price)

namespace ByID

/-- The keys of a map, in `range` order. -/
def keys (m : ByID) : List PriceID := m.map Prod.fst

/-- The keys of a map are pairwise distinct. -/
def WF (m : ByID) : Prop := (keys m).Nodup

instance (m : ByID) : Decidable (WF m) := inferInstanceAs (Decidable (keys m).Nodup)

/-- The two-result index expression `v, ok := m[k]`: `none` when `k` is no key. -/
def lookup (m : ByID) (k : PriceID) : Option (Option Price) :=
  match m with
  | [] => none
  | (k', v) :: rest => if k' = k then some v else lookup rest k

/-- The one-result index expression `m[k]`: the nil pointer when `k` is no key. -/
def get (m : ByID) (k : PriceID) : Option Price :=
  (lookup m k).join

end ByID

/-- Modelled from the spec: the declaration of `Resource` (package `plan`) is
missing. One plan entry with its address, its action and its two price maps. -/
structure Resource where
  Address : String
  Action : String
  Before : ByID
  After : ByID
deriving Repr

/-- Transcription of `findBeforePrice`: the price stored under `priceID`, else the
value of the first entry in `range` order whose usage operation starts with the
text of the query before its first colon, else nil. -/
def findBeforePrice (beforePrices : ByID) (priceID : PriceID) : Option Price :=
  match beforePrices.lookup priceID with
  | some beforePrice => beforePrice
  | none =>
    let usagePrefix := (strings.SplitN2 priceID.UsageOperation ':').headD ""
    match beforePrices.find? (fun e => strings.HasPrefix e.1.UsageOperation usagePrefix) with
    | some e => e.2
    | none => none

/-- The external library functions of the program. `ParseFloat s` is the pair
returned by `strconv.ParseFloat(s, 32)`: the value, and whether the error result
is non-nil. `Color` is `colorstring.Color`; `moneyHr` and `moneyMo` are the
`FormatMoney` methods of the two `accounting.Accounting` values of the program. -/
structure Lib where
  ParseFloat : String → ℚ × Bool
  Color : String → String
  moneyHr : ℚ → String
  moneyMo : ℚ → String

deriving instance DecidableEq for Except

/-- The run-time panics of the program. -/
inductive Fault where
  | indexOutOfRange
  | nilDereference
deriving DecidableEq, Repr

/-- One element of `tableData`. `unknown` is the row of a resource without prices;
`cost` is a row built by `addTableRow`, kept with the three numbers that its
last three cells are formatted from (`Row.cells` gives the strings). -/
inductive Row where
  | unknown (address : String)
  | cost (address description : String) (hourly monthly delta : ℚ)
deriving DecidableEq

/-- Transcription of the struct `pricingTable`. -/
structure pricingTable where
  tableData : List Row
  hourlyTotal : ℚ
  monthlyTotal : ℚ
  monthlyTotalDelta : ℚ
deriving DecidableEq

/-- Transcription of `formatAddress`. -/
def formatAddress (lib : Lib) (res : Resource) : String :=
  let actionIcon :=
    if res.Action = "create" then "[green]+[reset]"
    else if res.Action = "delete" then "[red]-[reset]"
    else if res.Action = "update" then "[yellow]~[reset]"
    else " "
  lib.Color (actionIcon ++ " " ++ res.Address)

/-- Transcription of `formatDelta`. -/
def formatDelta (lib : Lib) (delta : ℚ) : String :=
  let formattedDelta := lib.moneyMo delta
  if delta > 0 then lib.Color ("[light_red]" ++ formattedDelta)
  else if delta < 0 then lib.Color ("[light_green]" ++ formattedDelta)
  else formattedDelta

/-- The five strings of a row, as the program appends them to `tableData`. -/
def Row.cells (lib : Lib) : Row → List String
  | Row.unknown address =>
    [address, lib.Color "[dark_gray]* unknown resource *", " ", " ", " "]
  | Row.cost address description hourly monthly delta =>
    [address, description, lib.moneyHr hourly, lib.moneyMo monthly, formatDelta lib delta]

/-- The loop of `formatDescription`: `i` is the index of the head of the remaining
`before` segments, and `after[i]` panics when `i` is out of range. -/
def diffLoop (after : List String) :
    Nat → List String → List String → Except Fault (List String)
  | _, [], diffSegments => Except.ok diffSegments
  | i, beforeSeg :: rest, diffSegments =>
    match after[i]? with
    | none => Except.error Fault.indexOutOfRange
    | some afterSeg =>
      if afterSeg = beforeSeg then
        diffLoop after (i + 1) rest (diffSegments ++ [beforeSeg])
      else
        diffLoop after (i + 1) rest
          (diffSegments ++ ["(" ++ beforeSeg ++ " -> " ++ afterSeg ++ ")"])

/-- Transcription of `formatDescription`. -/
def formatDescription (beforePrice price : Option Price) : Except Fault String :=
  match beforePrice, price with
  | some bp, some p =>
    if bp.UsageOperation = p.UsageOperation then Except.ok p.UsageOperation
    else
      match diffLoop (strings.Split p.UsageOperation ':') 0
          (strings.Split bp.UsageOperation ':') [] with
      | Except.ok diffSegments => Except.ok (strings.Join diffSegments ":")
      | Except.error e => Except.error e
  | some bp, none => Except.ok bp.UsageOperation
  | none, some p => Except.ok p.UsageOperation
  | none, none => Except.error Fault.nilDereference

/-- The guard `p != nil && len(p.Dimensions) > 0` of `addTableRow`, giving
`p.Dimensions[0]` when it holds. -/
def firstDimension (p : Option Price) : Option PriceDimension :=
  match p with
  | none => none
  | some q => q.Dimensions.head?

/-- Transcription of `addTableRow`, the updated table being returned. -/
def addTableRow (lib : Lib) (pricing : pricingTable) (res : Resource) (priceID : PriceID) :
    Except Fault pricingTable :=
  let price := res.After.get priceID
  let beforePrice := findBeforePrice res.Before priceID
  let hourlyBefore : ℚ :=
    match firstDimension beforePrice with
    | some d => (lib.ParseFloat d.PricePerUnit).1
    | none => 0
  let hourlyAfter : ℚ :=
    match firstDimension price with
    | some d => (lib.ParseFloat d.PricePerUnit).1
    | none => 0
  let price :=
    if (firstDimension price).isSome then price
    else if beforePrice.isSome then beforePrice
    else price
  let monthlyAfter := hourlyAfter * 730
  let monthlyDelta := (hourlyAfter - hourlyBefore) * 730
  match formatDescription beforePrice price with
  | Except.error e => Except.error e
  | Except.ok description =>
    Except.ok
      { tableData := pricing.tableData ++
          [Row.cost (formatAddress lib res) description hourlyAfter monthlyAfter monthlyDelta]
        hourlyTotal := pricing.hourlyTotal + hourlyAfter
        monthlyTotal := pricing.monthlyTotal + monthlyAfter
        monthlyTotalDelta := pricing.monthlyTotalDelta + monthlyDelta }

/-- The body of the loop of `FormatTable` over the resources. -/
def processResource (lib : Lib) (pricing : pricingTable) (res : Resource) :
    Except Fault pricingTable :=
  if res.Before.length = 0 ∧ res.After.length = 0 then
    Except.ok { pricing with
      tableData := pricing.tableData ++ [Row.unknown (formatAddress lib res)] }
  else if res.Action = "delete" then
    res.Before.keys.foldlM (fun pricing priceChange => addTableRow lib pricing res priceChange)
      pricing
  else
    res.After.keys.foldlM (fun pricing priceChange => addTableRow lib pricing res priceChange)
      pricing

/-- The pricing table that `FormatTable` builds and hands to the table writer. -/
def FormatTable (lib : Lib) (resources : List Resource) : Except Fault pricingTable :=
  resources.foldlM (processResource lib)
    { tableData := [], hourlyTotal := 0, monthlyTotal := 0, monthlyTotalDelta := 0 }

/-! ## A concrete library for evaluation -/

/-- Reads a run of decimal digits after the mantissa `acc`; `none` on any other
character. -/
def readDigits : Nat → List Char → Option Nat
  | acc, [] => some acc
  | acc, c :: cs => if c.isDigit then readDigits (10 * acc + (c.toNat - 48)) cs else none

/-- Reads an unsigned plain decimal `digits[.digits]` with at least one digit: the
mantissa with the point removed and the number of digits after the point. -/
def readDecimal (cs : List Char) : Option (Nat × Nat) :=
  let whole := cs.takeWhile (fun c => c != '.')
  let frac := (cs.dropWhile (fun c => c != '.')).drop 1
  if whole.length + frac.length = 0 then none
  else
    match readDigits 0 (whole ++ frac) with
    | some m => some (m, frac.length)
    | none => none

/-- The value and error flag of `strconv.ParseFloat` on plain signed decimals, where
the value is taken exactly; any other text is a syntax error with value `0`. -/
def parsePlainDecimal (s : String) : ℚ × Bool :=
  match s.data with
  | '-' :: cs =>
    match readDecimal cs with
    | some (m, k) => (-((m : ℚ) / 10 ^ k), false)
    | none => (0, true)
  | '+' :: cs =>
    match readDecimal cs with
    | some (m, k) => ((m : ℚ) / 10 ^ k, false)
    | none => (0, true)
  | cs =>
    match readDecimal cs with
    | some (m, k) => ((m : ℚ) / 10 ^ k, false)
    | none => (0, true)

/-- A library instance for evaluating the program on concrete inputs: plain decimal
rates, no colour markup, and a fixed text for every amount. -/
def plainLib : Lib where
  ParseFloat := parsePlainDecimal
  Color := fun s => s
  moneyHr := fun _ => "$/hr"
  moneyMo := fun _ => "$/mo"

/-! ## Reference definitions for the statements -/

/-- The hourly rate of a possibly absent price as the cost rules word it: `0` when
the price is absent or has no dimensions, otherwise the parsed rate of its first
dimension. -/
def parsedFirstRate (lib : Lib) (p : Option Price) : ℚ :=
  match p with
  | none => 0
  | some q =>
    match q.Dimensions with
    | [] => 0
    | d :: _ => (lib.ParseFloat d.PricePerUnit).1

/-- The three cost numbers of a row; a row of an unknown resource has none. -/
def Row.costs : Row → Option (ℚ × ℚ × ℚ)
  | Row.unknown _ => none
  | Row.cost _ _ hourly monthly delta => some (hourly, monthly, delta)

/-- Sum of the hourly costs of the rows that have costs. -/
def sumHourly (rows : List Row) : ℚ :=
  ((rows.filterMap Row.costs).map (fun c => c.1)).sum

/-- Sum of the monthly costs of the rows that have costs. -/
def sumMonthly (rows : List Row) : ℚ :=
  ((rows.filterMap Row.costs).map (fun c => c.2.1)).sum

/-- Sum of the monthly deltas of the rows that have costs. -/
def sumDelta (rows : List Row) : ℚ :=
  ((rows.filterMap Row.costs).map (fun c => c.2.2)).sum

/-- One step of aggregating again from the rows: a row with costs adds its three
numbers to the running totals, a row of an unknown resource leaves them alone. -/
def accumulate (totals : ℚ × ℚ × ℚ) (row : Row) : ℚ × ℚ × ℚ :=
  match row.costs with
  | none => totals
  | some c => (totals.1 + c.1, totals.2.1 + c.2.1, totals.2.2 + c.2.2)

/-- Aggregating again from a row sequence, starting from zero. -/
def reaggregate (rows : List Row) : ℚ × ℚ × ℚ :=
  rows.foldl accumulate (0, 0, 0)

/-- The text of a usage operation before its first colon. -/
def usagePrefixOf (usageOperation : String) : String :=
  String.mk (usageOperation.data.takeWhile (fun c => c != ':'))

/-- The text for one index of the description of a change: the common segment when
the two segments are equal, otherwise both in brackets with an arrow. -/
def diffSegment (beforeSeg afterSeg : String) : String :=
  if beforeSeg = afterSeg then beforeSeg else "(" ++ beforeSeg ++ " -> " ++ afterSeg ++ ")"

/-- The first dimension of a possibly absent price carries a rate on which
`strconv.ParseFloat` reports an error. -/
def firstRateMalformed (lib : Lib) (p : Option Price) : Bool :=
  match p with
  | none => false
  | some q =>
    match q.Dimensions with
    | [] => false
    | d :: _ => (lib.ParseFloat d.PricePerUnit).2

/-- The totals of a table are the sums over its rows. -/
def TotalsMatchRows (pricing : pricingTable) : Prop :=
  pricing.hourlyTotal = sumHourly pricing.tableData ∧
  pricing.monthlyTotal = sumMonthly pricing.tableData ∧
  pricing.monthlyTotalDelta = sumDelta pricing.tableData

/-- The price that `addTableRow` passes to `formatDescription` as the current price:
the after-price when it has a dimension, otherwise the resolved before-price when
there is one, otherwise the after-price. -/
def currentPrice (res : Resource) (priceID : PriceID) : Option Price :=
  if (firstDimension (res.After.get priceID)).isSome then res.After.get priceID
  else if (findBeforePrice res.Before priceID).isSome then findBeforePrice res.Before priceID
  else res.After.get priceID

/-- The row that `addTableRow` appends for a PriceID of a resource, or the panic
with which it ends. -/
def rowOf (lib : Lib) (res : Resource) (priceID : PriceID) : Except Fault Row :=
  match formatDescription (findBeforePrice res.Before priceID) (currentPrice res priceID) with
  | Except.error e => Except.error e
  | Except.ok description =>
    Except.ok (Row.cost (formatAddress lib res) description
      (parsedFirstRate lib (res.After.get priceID))
      (parsedFirstRate lib (res.After.get priceID) * 730)
      ((parsedFirstRate lib (res.After.get priceID) -
        parsedFirstRate lib (findBeforePrice res.Before priceID)) * 730))

/-- A table with one more row, the costs of the row added to the totals. -/
def appendRow (pricing : pricingTable) (row : Row) : pricingTable where
  tableData := pricing.tableData ++ [row]
  hourlyTotal :=
    (accumulate (pricing.hourlyTotal, pricing.monthlyTotal, pricing.monthlyTotalDelta) row).1
  monthlyTotal :=
    (accumulate (pricing.hourlyTotal, pricing.monthlyTotal, pricing.monthlyTotalDelta) row).2.1
  monthlyTotalDelta :=
    (accumulate (pricing.hourlyTotal, pricing.monthlyTotal, pricing.monthlyTotalDelta) row).2.2

/-- The table with which `FormatTable` starts. -/
def emptyTable : pricingTable :=
  { tableData := [], hourlyTotal := 0, monthlyTotal := 0, monthlyTotalDelta := 0 }

/-- The block of rows of one resource: the rows with which the loop body of
`FormatTable` ends when it runs on the resource from the empty table. -/
def resourceRows (lib : Lib) (res : Resource) : Except Fault (List Row) :=
  match processResource lib emptyTable res with
  | Except.error e => Except.error e
  | Except.ok pricing => Except.ok pricing.tableData

/-- The price map that the loop body of `FormatTable` ranges over for a resource
with prices: the before map of a delete, the after map of any other action. -/
def drivingSet (res : Resource) : ByID :=
  if res.Action = "delete" then res.Before else res.After

/-- A map without nil pointers, given by its entries. -/
def ByID.ofEntries (entries : List (PriceID × Price)) : ByID :=
  entries.map (fun e => (e.1, some e.2))

/-- The rows `rows` are the block that the loop body of `FormatTable` emits for a
resource: the one row of an unknown resource when both maps are empty, otherwise
one row for each PriceID of the driving set, in `range` order. -/
def IsBlock (lib : Lib) (res : Resource) (rows : List Row) : Prop :=
  if res.Before.length = 0 ∧ res.After.length = 0 then
    rows = [Row.unknown (formatAddress lib res)]
  else
    List.Forall₂ (fun k row => rowOf lib res k = Except.ok row) (drivingSet res).keys rows

/-! ## Example inputs -/

/-- An update of one price from the rate `0.25` to the rate `0.5`. -/
def updateExample : Resource where
  Address := "aws_instance.web"
  Action := "update"
  Before := [(⟨"AmazonEC2", "EC2:t2.micro"⟩, some ⟨"EC2:t2.micro", [⟨"0.25"⟩]⟩)]
  After := [(⟨"AmazonEC2", "EC2:t2.large"⟩, some ⟨"EC2:t2.large", [⟨"0.5"⟩]⟩)]

/-- The table after the one row of `updateExample`. -/
def updateExampleTable : pricingTable :=
  ⟨[Row.cost "[yellow]~[reset] aws_instance.web" "EC2:(t2.micro -> t2.large)"
    (1 / 2) 365 (365 / 2)], 1 / 2, 365, 365 / 2⟩

/-- A resource of unspecified action for which no prices were found. -/
def noPriceExample : Resource where
  Address := "aws_s3_bucket.logs"
  Action := ""
  Before := []
  After := []

/-- The table of the pass over `noPriceExample` and then `updateExample`. -/
def twoResourceTable : pricingTable :=
  ⟨[Row.unknown "  aws_s3_bucket.logs",
    Row.cost "[yellow]~[reset] aws_instance.web" "EC2:(t2.micro -> t2.large)"
      (1 / 2) 365 (365 / 2)], 1 / 2, 365, 365 / 2⟩

/-- A before map whose first entry in `range` order has a usage operation that
starts with `EC2`, the prefix of the second key. -/
def twoEc2Prices : ByID :=
  [(⟨"AmazonEC2", "EC2:BoxUsage"⟩, some ⟨"EC2:BoxUsage", [⟨"0.25"⟩]⟩),
   (⟨"AmazonEC2", "EC2:RunInstance"⟩, some ⟨"EC2:RunInstance", [⟨"0.5"⟩]⟩)]

/-- An update whose new price carries the rate text `abc`. -/
def malformedRateExample : Resource where
  Address := "aws_instance.web"
  Action := "update"
  Before := [(⟨"AmazonEC2", "EC2:t2.micro"⟩, some ⟨"EC2:t2.micro", [⟨"0.5"⟩]⟩)]
  After := [(⟨"AmazonEC2", "EC2:t2.micro"⟩, some ⟨"EC2:t2.micro", [⟨"abc"⟩]⟩)]

/-- The removal of a bucket with the one price `S3:Standard` at the rate `0.023`. -/
def s3DeleteExample : Resource where
  Address := "aws_s3_bucket.logs"
  Action := "delete"
  Before := ByID.ofEntries [(⟨"AmazonS3", "S3:Standard"⟩, ⟨"S3:Standard", [⟨"0.023"⟩]⟩)]
  After := []

/-- A created instance whose after map is `twoEc2Prices`, visited in that order. -/
def createExample : Resource where
  Address := "aws_instance.web"
  Action := "create"
  Before := []
  After := twoEc2Prices

/-- The resource `createExample` with its after map visited in the reverse order. -/
def createExampleReversed : Resource where
  Address := "aws_instance.web"
  Action := "create"
  Before := []
  After := twoEc2Prices.reverse

/-- An update whose after-price is present without dimensions; its key is no key of
the before map, whose one price is resolved through the prefix `EC2`. -/
def noDimensionExample : Resource where
  Address := "aws_instance.web"
  Action := "update"
  Before := [(⟨"AmazonEC2", "EC2:t2.micro"⟩, some ⟨"EC2:t2.micro", [⟨"0.25"⟩]⟩)]
  After := [(⟨"AmazonEC2", "EC2:t2.large"⟩, some ⟨"EC2:t2.large", []⟩)]

/-- An update that changes nothing: the two EC2 prices before and after, the after
map being visited in the reverse order. -/
def noOpExample : Resource where
  Address := "aws_instance.web"
  Action := "update"
  Before := ByID.ofEntries
    [(⟨"AmazonEC2", "EC2:BoxUsage"⟩, ⟨"EC2:BoxUsage", [⟨"0.25"⟩]⟩),
     (⟨"AmazonEC2", "EC2:RunInstance"⟩, ⟨"EC2:RunInstance", [⟨"0.5"⟩]⟩)]
  After := ByID.ofEntries
    [(⟨"AmazonEC2", "EC2:RunInstance"⟩, ⟨"EC2:RunInstance", [⟨"0.5"⟩]⟩),
     (⟨"AmazonEC2", "EC2:BoxUsage"⟩, ⟨"EC2:BoxUsage", [⟨"0.25"⟩]⟩)]

/-- A removed instance whose before map is `twoEc2Prices`, visited in that order. -/
def deleteExample : Resource where
  Address := "aws_instance.web"
  Action := "delete"
  Before := twoEc2Prices
  After := []

/-- The resource `deleteExample` with its before map visited in the reverse order. -/
def deleteExampleReversed : Resource where
  Address := "aws_instance.web"
  Action := "delete"
  Before := twoEc2Prices.reverse
  After := []

/-! ## Lemmas on the library functions and the maps -/

/-- The library functions on the texts of the program. -/
theorem strings_examples :
    strings.Split "EC2:t2.micro:Linux" ':' = ["EC2", "t2.micro", "Linux"] ∧
    strings.Split "" ':' = [""] ∧
    strings.Split "a::" ':' = ["a", "", ""] ∧
    strings.SplitN2 "EC2:t2.micro:Linux" ':' = ["EC2", "t2.micro:Linux"] ∧
    strings.SplitN2 "EC2" ':' = ["EC2"] ∧
    strings.Join ["EC2", "t2.micro", "Linux"] ":" = "EC2:t2.micro:Linux" ∧
    strings.HasPrefix "EC2:RunInstance" "EC2" = true ∧
    strings.HasPrefix "EC2" "EC2:RunInstance" = false := by
  decide

/-- A split always has at least one segment. -/
theorem splitChars_ne_nil (sep : Char) (cs : List Char) : strings.splitChars sep cs ≠ [] := by
  cases cs with
  | nil => simp [strings.splitChars]
  | cons c cs =>
    simp only [strings.splitChars]
    split
    · simp
    · split <;> simp

/-- Joining the segments of a split with the separator gives the text back. -/
theorem intercalate_splitChars (sep : Char) (cs : List Char) :
    List.intercalate [sep] (strings.splitChars sep cs) = cs := by
  induction cs with
  | nil => simp [strings.splitChars, List.intercalate]
  | cons c cs ih =>
    simp only [strings.splitChars]
    split
    · rename_i hc
      cases hs : strings.splitChars sep cs with
      | nil => exact absurd hs (splitChars_ne_nil sep cs)
      | cons seg rest =>
        rw [hs] at ih
        simp only [List.intercalate, List.intersperse, List.flatten_cons, List.nil_append] at ih ⊢
        rw [hc]
        simpa using ih
    · cases hs : strings.splitChars sep cs with
      | nil => exact absurd hs (splitChars_ne_nil sep cs)
      | cons seg rest =>
        rw [hs] at ih
        cases rest with
        | nil => simpa [List.intercalate] using ih
        | cons seg' rest' =>
          simp only [List.intercalate, List.intersperse, List.flatten_cons] at ih ⊢
          simpa using ih

/-- No segment of a split contains the separator. -/
theorem splitChars_no_sep (sep : Char) (cs : List Char) :
    ∀ seg ∈ strings.splitChars sep cs, sep ∉ seg := by
  induction cs with
  | nil => simp [strings.splitChars]
  | cons c cs ih =>
    simp only [strings.splitChars]
    split
    · intro seg hseg
      rcases List.mem_cons.mp hseg with h | h
      · simp [h]
      · exact ih seg h
    · rename_i hc
      cases hs : strings.splitChars sep cs with
      | nil => exact absurd hs (splitChars_ne_nil sep cs)
      | cons seg rest =>
        rw [hs] at ih
        intro seg' hseg'
        rcases List.mem_cons.mp hseg' with h | h
        · subst h
          intro hmem
          rcases List.mem_cons.mp hmem with h1 | h1
          · exact hc h1.symm
          · exact ih seg (List.mem_cons_self _ _) h1
        · exact ih seg' (List.mem_cons_of_mem _ h)

/-- Joining on the colon what `strings.Split` gives for the colon is the identity. -/
theorem Join_Split (s : String) : strings.Join (strings.Split s ':') ":" = s := by
  have h : (":" : String).data = [':'] := rfl
  simp only [strings.Join, strings.Split, h, List.map_map]
  have hc : (String.data ∘ String.mk) = id := rfl
  rw [hc, List.map_id, intercalate_splitChars]
theorem SplitN2_head (s : String) :
    (strings.SplitN2 s ':').headD "" = usagePrefixOf s := by
  unfold strings.SplitN2 usagePrefixOf
  cases h : s.data.dropWhile (fun c => c != ':') <;> simp

theorem HasPrefix_iff (s p : String) : strings.HasPrefix s p = true ↔ p.data <+: s.data := by
  simp [strings.HasPrefix]

theorem lookup_eq_none_iff (m : ByID) (k : PriceID) :
    m.lookup k = none ↔ k ∉ m.keys := by
  induction m with
  | nil => simp [ByID.lookup, ByID.keys]
  | cons e rest ih =>
    obtain ⟨k', v⟩ := e
    by_cases hk : k' = k
    · simp [ByID.lookup, ByID.keys, hk]
    · have hk' : ¬ k = k' := fun h => hk h.symm
      simpa [ByID.lookup, ByID.keys, hk, hk'] using ih

theorem lookup_of_mem (m : ByID) (k : PriceID) (v : Option Price)
    (hwf : m.WF) (h : (k, v) ∈ m) : m.lookup k = some v := by
  induction m with
  | nil => simp at h
  | cons e rest ih =>
    obtain ⟨k', v'⟩ := e
    have hnd : k' ∉ ByID.keys rest ∧ (ByID.keys rest).Nodup := by
      simpa [ByID.WF, ByID.keys] using hwf
    rcases List.mem_cons.mp h with heq | hmem
    · cases heq
      simp [ByID.lookup]
    · have hin : k ∈ ByID.keys rest := List.mem_map.mpr ⟨(k, v), hmem, rfl⟩
      have hne : ¬ k' = k := fun hkk => hnd.1 (hkk ▸ hin)
      simpa [ByID.lookup, hne] using ih hnd.2 hmem

theorem lookup_mem (m : ByID) (k : PriceID) (v : Option Price)
    (h : m.lookup k = some v) : (k, v) ∈ m := by
  induction m with
  | nil => simp [ByID.lookup] at h
  | cons e rest ih =>
    obtain ⟨k', v'⟩ := e
    by_cases hk : k' = k
    · simp [ByID.lookup, hk] at h
      simp [hk, h]
    · simp only [ByID.lookup, hk, if_false] at h
      exact List.mem_cons_of_mem _ (ih h)

theorem parsePlainDecimal_half : parsePlainDecimal "0.5" = (1 / 2, false) := by
  simp [parsePlainDecimal, readDecimal, readDigits]
  norm_num

theorem parsePlainDecimal_quarter : parsePlainDecimal "0.25" = (1 / 4, false) := by
  simp [parsePlainDecimal, readDecimal, readDigits]
  norm_num

theorem parsePlainDecimal_abc : parsePlainDecimal "abc" = (0, true) := by
  simp [parsePlainDecimal, readDecimal, readDigits]

/-! ## The rows and totals of `addTableRow` -/

theorem firstDimension_rate (lib : Lib) (p : Option Price) :
    (match firstDimension p with
      | some d => (lib.ParseFloat d.PricePerUnit).1
      | none => 0) = parsedFirstRate lib p := by
  cases p with
  | none => rfl
  | some q =>
    cases hq : q.Dimensions <;> simp [firstDimension, parsedFirstRate, hq]

/-- Whenever `addTableRow` returns, it has appended one cost row and added the
three numbers of that row to the three totals. -/
theorem addTableRow_ok (lib : Lib) (pricing pricing' : pricingTable) (res : Resource)
    (priceID : PriceID) (h : addTableRow lib pricing res priceID = Except.ok pricing') :
    ∃ description : String,
      pricing' =
        { tableData := pricing.tableData ++
            [Row.cost (formatAddress lib res) description
              (parsedFirstRate lib (res.After.get priceID))
              (parsedFirstRate lib (res.After.get priceID) * 730)
              ((parsedFirstRate lib (res.After.get priceID) -
                parsedFirstRate lib (findBeforePrice res.Before priceID)) * 730)]
          hourlyTotal := pricing.hourlyTotal + parsedFirstRate lib (res.After.get priceID)
          monthlyTotal :=
            pricing.monthlyTotal + parsedFirstRate lib (res.After.get priceID) * 730
          monthlyTotalDelta := pricing.monthlyTotalDelta +
            (parsedFirstRate lib (res.After.get priceID) -
              parsedFirstRate lib (findBeforePrice res.Before priceID)) * 730 } := by
  unfold addTableRow at h
  simp only [firstDimension_rate] at h
  split at h
  · cases h
  · rename_i description _
    refine ⟨description, ?_⟩
    cases h
    rfl

/-- C1: for every resource and PriceID handled by `addTableRow`, the row that is
appended has hourly cost `hourlyAfter`, monthly cost `hourlyAfter * 730` and monthly
delta `(hourlyAfter - hourlyBefore) * 730`, where `hourlyAfter` is the parsed
first-dimension rate of `res.After[priceID]` and `hourlyBefore` that of the resolved
before-price, each `0` when the price is absent or has no dimensions. -/
theorem C1_row_costs (lib : Lib) (pricing pricing' : pricingTable) (res : Resource)
    (priceID : PriceID) (h : addTableRow lib pricing res priceID = Except.ok pricing') :
    ∃ address description : String,
      pricing'.tableData = pricing.tableData ++
        [Row.cost address description
          (parsedFirstRate lib (res.After.get priceID))
          (parsedFirstRate lib (res.After.get priceID) * 730)
          ((parsedFirstRate lib (res.After.get priceID) -
            parsedFirstRate lib (findBeforePrice res.Before priceID)) * 730)] := by
  obtain ⟨description, hp⟩ := addTableRow_ok lib pricing pricing' res priceID h
  exact ⟨formatAddress lib res, description, by rw [hp]⟩

theorem addTableRow_updateExample (pricing : pricingTable) :
    addTableRow plainLib pricing updateExample ⟨"AmazonEC2", "EC2:t2.large"⟩ =
      Except.ok ⟨pricing.tableData ++
        [Row.cost "[yellow]~[reset] aws_instance.web" "EC2:(t2.micro -> t2.large)"
          (1 / 2) 365 (365 / 2)],
        pricing.hourlyTotal + 1 / 2, pricing.monthlyTotal + 365,
        pricing.monthlyTotalDelta + 365 / 2⟩ := by
  have hd : formatDescription (some ⟨"EC2:t2.micro", [⟨"0.25"⟩]⟩)
      (some ⟨"EC2:t2.large", [⟨"0.5"⟩]⟩) = Except.ok "EC2:(t2.micro -> t2.large)" := by
    decide
  have hb : findBeforePrice updateExample.Before ⟨"AmazonEC2", "EC2:t2.large"⟩ =
      some ⟨"EC2:t2.micro", [⟨"0.25"⟩]⟩ := by decide
  have ha : updateExample.After.get ⟨"AmazonEC2", "EC2:t2.large"⟩ =
      some ⟨"EC2:t2.large", [⟨"0.5"⟩]⟩ := by decide
  have hf : formatAddress plainLib updateExample = "[yellow]~[reset] aws_instance.web" := by
    decide
  have hp : plainLib.ParseFloat = parsePlainDecimal := rfl
  simp only [addTableRow, hb, ha, hf, firstDimension, List.head?, hp,
    parsePlainDecimal_half, parsePlainDecimal_quarter, Option.isSome, if_true, hd]
  norm_num

theorem addTableRow_updateExample_zero :
    addTableRow plainLib ⟨[], 0, 0, 0⟩ updateExample ⟨"AmazonEC2", "EC2:t2.large"⟩ =
      Except.ok ⟨[Row.cost "[yellow]~[reset] aws_instance.web" "EC2:(t2.micro -> t2.large)"
        (1 / 2) 365 (365 / 2)], 1 / 2, 365, 365 / 2⟩ := by
  rw [addTableRow_updateExample]
  norm_num

/-- Witness of C1: the row of an update from the rate `0.25` to the rate `0.5`. -/
theorem C1_row_costs_witness :
    addTableRow plainLib ⟨[], 0, 0, 0⟩ updateExample ⟨"AmazonEC2", "EC2:t2.large"⟩ =
      Except.ok updateExampleTable ∧
    ∃ address description : String,
      updateExampleTable.tableData = ([] : List Row) ++
        [Row.cost address description
          (parsedFirstRate plainLib (updateExample.After.get ⟨"AmazonEC2", "EC2:t2.large"⟩))
          (parsedFirstRate plainLib (updateExample.After.get ⟨"AmazonEC2", "EC2:t2.large"⟩) * 730)
          ((parsedFirstRate plainLib (updateExample.After.get ⟨"AmazonEC2", "EC2:t2.large"⟩) -
            parsedFirstRate plainLib
              (findBeforePrice updateExample.Before ⟨"AmazonEC2", "EC2:t2.large"⟩)) * 730)] :=
  ⟨addTableRow_updateExample_zero,
    C1_row_costs plainLib ⟨[], 0, 0, 0⟩ updateExampleTable updateExample
      ⟨"AmazonEC2", "EC2:t2.large"⟩ addTableRow_updateExample_zero⟩

/-! ## Totals and rows of the whole pass -/

theorem foldlM_invariant {α β : Type} (P : β → Prop) (f : β → α → Except Fault β)
    (hf : ∀ b a b', P b → f b a = Except.ok b' → P b') (l : List α) (b b' : β)
    (hb : P b) (h : l.foldlM f b = Except.ok b') : P b' := by
  induction l generalizing b with
  | nil =>
    simp only [List.foldlM_nil] at h
    cases h
    exact hb
  | cons a rest ih =>
    rw [List.foldlM_cons] at h
    cases hfa : f b a with
    | error e =>
      rw [hfa] at h
      cases h
    | ok b1 =>
      rw [hfa] at h
      exact ih b1 (hf b a b1 hb hfa) h

theorem sums_append_cost (rows : List Row) (address description : String) (h m d : ℚ) :
    sumHourly (rows ++ [Row.cost address description h m d]) = sumHourly rows + h ∧
    sumMonthly (rows ++ [Row.cost address description h m d]) = sumMonthly rows + m ∧
    sumDelta (rows ++ [Row.cost address description h m d]) = sumDelta rows + d := by
  simp [sumHourly, sumMonthly, sumDelta, List.filterMap_append, Row.costs]

theorem sums_append_unknown (rows : List Row) (address : String) :
    sumHourly (rows ++ [Row.unknown address]) = sumHourly rows ∧
    sumMonthly (rows ++ [Row.unknown address]) = sumMonthly rows ∧
    sumDelta (rows ++ [Row.unknown address]) = sumDelta rows := by
  simp [sumHourly, sumMonthly, sumDelta, List.filterMap_append, Row.costs]

theorem addTableRow_invariant (lib : Lib) (res : Resource) (pricing : pricingTable)
    (priceID : PriceID) (pricing' : pricingTable) (hinv : TotalsMatchRows pricing)
    (h : addTableRow lib pricing res priceID = Except.ok pricing') :
    TotalsMatchRows pricing' := by
  obtain ⟨description, hp⟩ := addTableRow_ok lib pricing pricing' res priceID h
  obtain ⟨h1, h2, h3⟩ := hinv
  subst hp
  obtain ⟨s1, s2, s3⟩ := sums_append_cost pricing.tableData (formatAddress lib res) description
    (parsedFirstRate lib (res.After.get priceID))
    (parsedFirstRate lib (res.After.get priceID) * 730)
    ((parsedFirstRate lib (res.After.get priceID) -
      parsedFirstRate lib (findBeforePrice res.Before priceID)) * 730)
  exact ⟨by simp only [s1, h1], by simp only [s2, h2], by simp only [s3, h3]⟩

theorem processResource_invariant (lib : Lib) (pricing : pricingTable) (res : Resource)
    (pricing' : pricingTable) (hinv : TotalsMatchRows pricing)
    (h : processResource lib pricing res = Except.ok pricing') :
    TotalsMatchRows pricing' := by
  unfold processResource at h
  split at h
  · cases h
    obtain ⟨h1, h2, h3⟩ := hinv
    obtain ⟨s1, s2, s3⟩ := sums_append_unknown pricing.tableData (formatAddress lib res)
    exact ⟨by simp only [s1, h1], by simp only [s2, h2], by simp only [s3, h3]⟩
  · split at h
    · exact foldlM_invariant TotalsMatchRows _
        (fun b a b' hb hfa => addTableRow_invariant lib res b a b' hb hfa) _ _ _ hinv h
    · exact foldlM_invariant TotalsMatchRows _
        (fun b a b' hb hfa => addTableRow_invariant lib res b a b' hb hfa) _ _ _ hinv h

theorem foldl_accumulate (rows : List Row) (t : ℚ × ℚ × ℚ) :
    rows.foldl accumulate t =
      (t.1 + sumHourly rows, t.2.1 + sumMonthly rows, t.2.2 + sumDelta rows) := by
  induction rows generalizing t with
  | nil => simp [sumHourly, sumMonthly, sumDelta]
  | cons row rest ih =>
    rw [List.foldl_cons, ih]
    cases row with
    | unknown address =>
      simp [accumulate, Row.costs, sumHourly, sumMonthly, sumDelta]
    | cost address description h m d =>
      simp [accumulate, Row.costs, sumHourly, sumMonthly, sumDelta, add_assoc]

theorem reaggregate_eq (rows : List Row) :
    reaggregate rows = (sumHourly rows, sumMonthly rows, sumDelta rows) := by
  simp [reaggregate, foldl_accumulate]

/-- C2: for every list of resources, the totals with which the loop of `FormatTable`
ends are, field by field, the sums of the hourly costs, monthly costs and monthly
deltas of the rows with costs, and aggregating again from the row sequence,
starting from zero, gives the same three totals. -/
theorem C2_totals_are_row_sums (lib : Lib) (resources : List Resource)
    (pricing : pricingTable) (h : FormatTable lib resources = Except.ok pricing) :
    pricing.hourlyTotal = sumHourly pricing.tableData ∧
    pricing.monthlyTotal = sumMonthly pricing.tableData ∧
    pricing.monthlyTotalDelta = sumDelta pricing.tableData ∧
    reaggregate pricing.tableData =
      (pricing.hourlyTotal, pricing.monthlyTotal, pricing.monthlyTotalDelta) := by
  have hinv : TotalsMatchRows pricing :=
    foldlM_invariant TotalsMatchRows (processResource lib)
      (fun b a b' hb hfa => processResource_invariant lib b a b' hb hfa) resources _ pricing
      ⟨by simp [sumHourly], by simp [sumMonthly], by simp [sumDelta]⟩ h
  obtain ⟨h1, h2, h3⟩ := hinv
  exact ⟨h1, h2, h3, by rw [reaggregate_eq, h1, h2, h3]⟩

theorem FormatTable_twoResources :
    FormatTable plainLib [noPriceExample, updateExample] = Except.ok twoResourceTable := by
  have h1 : ∀ pricing, processResource plainLib pricing noPriceExample =
      Except.ok { pricing with
        tableData := pricing.tableData ++ [Row.unknown "  aws_s3_bucket.logs"] } := by
    intro pricing
    have hf : formatAddress plainLib noPriceExample = "  aws_s3_bucket.logs" := by decide
    have hb : noPriceExample.Before.length = 0 ∧ noPriceExample.After.length = 0 := by
      decide
    simp only [processResource, hb, hf, and_self, if_true]
  have h2 : ∀ pricing, processResource plainLib pricing updateExample =
      addTableRow plainLib pricing updateExample ⟨"AmazonEC2", "EC2:t2.large"⟩ := by
    intro pricing
    have hk : updateExample.After.keys = [⟨"AmazonEC2", "EC2:t2.large"⟩] := rfl
    have hb : ¬ (updateExample.Before.length = 0 ∧ updateExample.After.length = 0) := by
      decide
    have ha : ¬ updateExample.Action = "delete" := by decide
    simp only [processResource, hb, ha, if_false, hk, List.foldlM_cons, List.foldlM_nil]
    cases addTableRow plainLib pricing updateExample ⟨"AmazonEC2", "EC2:t2.large"⟩ <;> rfl
  simp only [FormatTable, List.foldlM_cons, List.foldlM_nil, h1, h2, addTableRow_updateExample]
  simp only [bind, Except.bind, pure, Except.pure, twoResourceTable]
  norm_num

/-- Witness of C2: the pass over a resource without prices and an update. -/
theorem C2_totals_are_row_sums_witness :
    FormatTable plainLib [noPriceExample, updateExample] = Except.ok twoResourceTable ∧
    twoResourceTable.hourlyTotal = sumHourly twoResourceTable.tableData ∧
    twoResourceTable.monthlyTotal = sumMonthly twoResourceTable.tableData ∧
    twoResourceTable.monthlyTotalDelta = sumDelta twoResourceTable.tableData ∧
    reaggregate twoResourceTable.tableData =
      (twoResourceTable.hourlyTotal, twoResourceTable.monthlyTotal,
        twoResourceTable.monthlyTotalDelta) :=
  ⟨FormatTable_twoResources,
    C2_totals_are_row_sums plainLib [noPriceExample, updateExample] twoResourceTable
      FormatTable_twoResources⟩

/-- C3: for every resource whose before and after maps are both empty, whatever its
action, processing it returns the table with exactly one more row, the row of an
unknown resource, whose first cell is the formatted address and whose three cost
cells are blank, and with the three totals unchanged. -/
theorem C3_empty_resource_placeholder (lib : Lib) (pricing : pricingTable) (res : Resource)
    (hb : res.Before = []) (ha : res.After = []) :
    processResource lib pricing res =
      Except.ok
        { tableData := pricing.tableData ++ [Row.unknown (formatAddress lib res)]
          hourlyTotal := pricing.hourlyTotal
          monthlyTotal := pricing.monthlyTotal
          monthlyTotalDelta := pricing.monthlyTotalDelta } ∧
    (Row.unknown (formatAddress lib res)).cells lib =
      [formatAddress lib res, lib.Color "[dark_gray]* unknown resource *", " ", " ", " "] ∧
    (Row.unknown (formatAddress lib res)).costs = none := by
  refine ⟨?_, rfl, rfl⟩
  simp [processResource, hb, ha]

/-- Witness of C3: a delete of a resource without prices, from non-zero totals. -/
theorem C3_empty_resource_placeholder_witness :
    processResource plainLib ⟨[], 3, 2190, 5⟩ ⟨"aws_s3_bucket.logs", "delete", [], []⟩ =
      Except.ok
        { tableData := [] ++
            [Row.unknown (formatAddress plainLib ⟨"aws_s3_bucket.logs", "delete", [], []⟩)]
          hourlyTotal := 3
          monthlyTotal := 2190
          monthlyTotalDelta := 5 } ∧
    (Row.unknown (formatAddress plainLib ⟨"aws_s3_bucket.logs", "delete", [], []⟩)).cells
        plainLib =
      [formatAddress plainLib ⟨"aws_s3_bucket.logs", "delete", [], []⟩,
        plainLib.Color "[dark_gray]* unknown resource *", " ", " ", " "] ∧
    (Row.unknown (formatAddress plainLib ⟨"aws_s3_bucket.logs", "delete", [], []⟩)).costs =
      none :=
  C3_empty_resource_placeholder plainLib ⟨[], 3, 2190, 5⟩
    ⟨"aws_s3_bucket.logs", "delete", [], []⟩ rfl rfl

/-! ## Resolving the before-price -/

theorem findBeforePrice_of_not_key (m : ByID) (priceID : PriceID)
    (hk : priceID ∉ m.keys) :
    findBeforePrice m priceID =
      match m.find? (fun e =>
          strings.HasPrefix e.1.UsageOperation (usagePrefixOf priceID.UsageOperation)) with
      | some e => e.2
      | none => none := by
  have hl : m.lookup priceID = none := (lookup_eq_none_iff m priceID).mpr hk
  simp only [findBeforePrice, hl, SplitN2_head]

/-- C4: for every before map and every PriceID that is a key of it, `findBeforePrice`
returns exactly the price stored under that key, whatever the other keys are, so
the exact lookup comes before the scan by prefix. -/
theorem C4_exact_lookup_first (m : ByID) (priceID : PriceID) (v : Option Price)
    (hwf : m.WF) (h : (priceID, v) ∈ m) : findBeforePrice m priceID = v := by
  simp only [findBeforePrice, lookup_of_mem m priceID v hwf h]

/-- Witness of C4: the second key is returned its own price although the first
entry matches the prefix of the query. -/
theorem C4_exact_lookup_first_witness :
    strings.HasPrefix "EC2:BoxUsage" (usagePrefixOf "EC2:RunInstance") = true ∧
    findBeforePrice twoEc2Prices ⟨"AmazonEC2", "EC2:RunInstance"⟩ =
      some ⟨"EC2:RunInstance", [⟨"0.5"⟩]⟩ :=
  ⟨by decide,
    C4_exact_lookup_first twoEc2Prices ⟨"AmazonEC2", "EC2:RunInstance"⟩
      (some ⟨"EC2:RunInstance", [⟨"0.5"⟩]⟩) (by decide) (by decide)⟩

/-- C5: for every before map and every PriceID that is not a key of it, a price
returned by `findBeforePrice` is the value of an entry whose usage operation starts
with the text of the query (not of the stored key) before its first colon; and
with the one entry `EC2:RunInstance ↦ P1` the query `EC2:BoxUsage` returns `P1`. -/
theorem C5_fallback_prefix_of_query :
    (∀ (m : ByID) (priceID : PriceID) (p : Price), priceID ∉ m.keys →
      findBeforePrice m priceID = some p →
      ∃ k : PriceID, (k, some p) ∈ m ∧
        (usagePrefixOf priceID.UsageOperation).data <+: k.UsageOperation.data) ∧
    (∀ (code code' : String) (P1 : Option Price),
      findBeforePrice [(⟨code, "EC2:RunInstance"⟩, P1)] ⟨code', "EC2:BoxUsage"⟩ = P1) := by
  constructor
  · intro m priceID p hk h
    rw [findBeforePrice_of_not_key m priceID hk] at h
    cases hf : m.find? (fun e =>
        strings.HasPrefix e.1.UsageOperation (usagePrefixOf priceID.UsageOperation)) with
    | none => simp [hf] at h
    | some e =>
      rw [hf] at h
      obtain ⟨k, v⟩ := e
      have hmem := List.mem_of_find?_eq_some hf
      have hpre := List.find?_some hf
      simp only at h hpre
      subst h
      exact ⟨k, hmem, (HasPrefix_iff _ _).mp hpre⟩
  · intro code code' P1
    have hne : ¬ (⟨code, "EC2:RunInstance"⟩ : PriceID) = ⟨code', "EC2:BoxUsage"⟩ := by
      intro h
      injection h with _ h2
      exact absurd h2 (by decide)
    have hp : strings.HasPrefix "EC2:RunInstance" (usagePrefixOf "EC2:BoxUsage") = true := by
      decide
    simp only [findBeforePrice, ByID.lookup, hne, if_false, SplitN2_head, List.find?, hp]

/-- Witness of C5: the query `EC2:BoxUsage` against the one entry `EC2:RunInstance`. -/
theorem C5_fallback_prefix_of_query_witness :
    (⟨"AmazonEC2", "EC2:BoxUsage"⟩ : PriceID) ∉
      ByID.keys [(⟨"AmazonEC2", "EC2:RunInstance"⟩, some ⟨"EC2:RunInstance", [⟨"0.5"⟩]⟩)] ∧
    findBeforePrice [(⟨"AmazonEC2", "EC2:RunInstance"⟩, some ⟨"EC2:RunInstance", [⟨"0.5"⟩]⟩)]
      ⟨"AmazonEC2", "EC2:BoxUsage"⟩ = some ⟨"EC2:RunInstance", [⟨"0.5"⟩]⟩ ∧
    ∃ k : PriceID,
      (k, some ⟨"EC2:RunInstance", [⟨"0.5"⟩]⟩) ∈
        ([(⟨"AmazonEC2", "EC2:RunInstance"⟩, some ⟨"EC2:RunInstance", [⟨"0.5"⟩]⟩)] : ByID) ∧
      (usagePrefixOf "EC2:BoxUsage").data <+: k.UsageOperation.data :=
  ⟨by decide, by decide,
    C5_fallback_prefix_of_query.1
      [(⟨"AmazonEC2", "EC2:RunInstance"⟩, some ⟨"EC2:RunInstance", [⟨"0.5"⟩]⟩)]
      ⟨"AmazonEC2", "EC2:BoxUsage"⟩ ⟨"EC2:RunInstance", [⟨"0.5"⟩]⟩ (by decide) (by decide)⟩

/-- C6: for every before map without nil values and every PriceID, `findBeforePrice`
returns nil exactly when the PriceID is not a key of the map and no key of the map
has a usage operation that starts with the text of the query before its first
colon. -/
theorem C6_not_found_iff (m : ByID) (priceID : PriceID)
    (hnn : ∀ e ∈ m, e.2 ≠ none) :
    findBeforePrice m priceID = none ↔
      priceID ∉ m.keys ∧
      ∀ k ∈ m.keys,
        ¬ (usagePrefixOf priceID.UsageOperation).data <+: k.UsageOperation.data := by
  constructor
  · intro h
    have hk : priceID ∉ m.keys := by
      intro hin
      obtain ⟨e, he, hfst⟩ := List.mem_map.mp hin
      cases hl : m.lookup priceID with
      | none => exact (lookup_eq_none_iff m priceID).mp hl hin
      | some v =>
        have hv : findBeforePrice m priceID = v := by simp only [findBeforePrice, hl]
        exact hnn (priceID, v) (lookup_mem m priceID v hl) (by rw [← hv, h])
    refine ⟨hk, ?_⟩
    rw [findBeforePrice_of_not_key m priceID hk] at h
    cases hf : m.find? (fun e =>
        strings.HasPrefix e.1.UsageOperation (usagePrefixOf priceID.UsageOperation)) with
    | some e =>
      rw [hf] at h
      exact absurd h (hnn e (List.mem_of_find?_eq_some hf))
    | none =>
      intro k hkin hpre
      obtain ⟨e, he, hfst⟩ := List.mem_map.mp hkin
      have := List.find?_eq_none.mp hf e he
      apply this
      rw [hfst]
      exact (HasPrefix_iff _ _).mpr hpre
  · rintro ⟨hk, hall⟩
    rw [findBeforePrice_of_not_key m priceID hk]
    have hf : m.find? (fun e =>
        strings.HasPrefix e.1.UsageOperation (usagePrefixOf priceID.UsageOperation)) = none := by
      apply List.find?_eq_none.mpr
      intro e he hpre
      exact hall e.1 (List.mem_map.mpr ⟨e, he, rfl⟩) ((HasPrefix_iff _ _).mp hpre)
    rw [hf]

/-- Witness of C6: the query `S3:Standard` against two `EC2` entries is not found. -/
theorem C6_not_found_iff_witness :
    (∀ e ∈ twoEc2Prices, e.2 ≠ none) ∧
    findBeforePrice twoEc2Prices ⟨"AmazonS3", "S3:Standard"⟩ = none ∧
    (findBeforePrice twoEc2Prices ⟨"AmazonS3", "S3:Standard"⟩ = none ↔
      (⟨"AmazonS3", "S3:Standard"⟩ : PriceID) ∉ ByID.keys twoEc2Prices ∧
      ∀ k ∈ ByID.keys twoEc2Prices,
        ¬ (usagePrefixOf "S3:Standard").data <+: k.UsageOperation.data) :=
  ⟨by decide, by decide,
    C6_not_found_iff twoEc2Prices ⟨"AmazonS3", "S3:Standard"⟩ (by decide)⟩

/-! ## The description of a change -/

theorem diffLoop_ok (after : List String) (before : List String) (i : Nat)
    (diffSegments : List String) (h : i + before.length ≤ after.length) :
    diffLoop after i before diffSegments =
      Except.ok (diffSegments ++ List.zipWith diffSegment before (after.drop i)) := by
  induction before generalizing i diffSegments with
  | nil => simp [diffLoop]
  | cons beforeSeg rest ih =>
    have hi : i < after.length := by
      simp only [List.length_cons] at h
      omega
    have hrest : i + 1 + rest.length ≤ after.length := by
      simp only [List.length_cons] at h
      omega
    rw [List.drop_eq_getElem_cons hi, List.zipWith_cons_cons]
    simp only [diffLoop, List.getElem?_eq_getElem hi]
    by_cases heq : after[i] = beforeSeg
    · have hseg : diffSegment beforeSeg after[i] = beforeSeg := by
        simp [diffSegment, heq]
      simp only [heq, if_true]
      rw [ih (i + 1) _ hrest, ← heq, List.append_assoc]
      simp [diffSegment]
    · have hne : ¬ beforeSeg = after[i] := fun h' => heq h'.symm
      simp only [heq, if_false]
      rw [ih (i + 1) _ hrest, List.append_assoc]
      simp [diffSegment, hne]

theorem diffLoop_error (after : List String) (before : List String) (i : Nat)
    (diffSegments : List String) (hi : i ≤ after.length)
    (h : after.length < i + before.length) :
    diffLoop after i before diffSegments = Except.error Fault.indexOutOfRange := by
  induction before generalizing i diffSegments with
  | nil =>
    simp only [List.length_nil] at h
    omega
  | cons beforeSeg rest ih =>
    by_cases hlt : i < after.length
    · have hrest : after.length < i + 1 + rest.length := by
        simp only [List.length_cons] at h
        omega
      simp only [diffLoop, List.getElem?_eq_getElem hlt]
      split
      · exact ih (i + 1) _ hlt hrest
      · exact ih (i + 1) _ hlt hrest
    · have hnone : after[i]? = none := List.getElem?_eq_none (by omega)
      simp only [diffLoop, hnone]

/-- When the before-price has more segments than the current price, the description
is not computed: the index into the segments of the current price goes out of
range. -/
theorem formatDescription_before_longer (bp p : Price)
    (hne : bp.UsageOperation ≠ p.UsageOperation)
    (hlen : (strings.Split p.UsageOperation ':').length <
      (strings.Split bp.UsageOperation ':').length) :
    formatDescription (some bp) (some p) = Except.error Fault.indexOutOfRange := by
  simp only [formatDescription, hne, if_false]
  rw [diffLoop_error _ _ 0 [] (Nat.zero_le _) (by omega)]

/-- C7: for every before-price and current price that are both present, whose usage
operations differ and split on the colon into the same number of segments,
`formatDescription` returns the colon-join of the per-index texts: the common
segment where the two segments are equal, and `(before -> after)` where they
differ. -/
theorem C7_description_diff (bp p : Price)
    (hne : bp.UsageOperation ≠ p.UsageOperation)
    (hlen : (strings.Split bp.UsageOperation ':').length =
      (strings.Split p.UsageOperation ':').length) :
    formatDescription (some bp) (some p) =
      Except.ok (strings.Join
        (List.zipWith (fun beforeSeg afterSeg =>
            if beforeSeg = afterSeg then beforeSeg
            else "(" ++ beforeSeg ++ " -> " ++ afterSeg ++ ")")
          (strings.Split bp.UsageOperation ':') (strings.Split p.UsageOperation ':')) ":") := by
  simp only [formatDescription, hne, if_false]
  rw [diffLoop_ok _ _ 0 [] (by omega)]
  simp only [List.drop_zero, List.nil_append]
  rfl

/-- Witness of C7: `EC2:t2.micro:Linux` against `EC2:t2.large:Linux`. -/
theorem C7_description_diff_witness :
    formatDescription (some ⟨"EC2:t2.micro:Linux", []⟩) (some ⟨"EC2:t2.large:Linux", []⟩) =
      Except.ok "EC2:(t2.micro -> t2.large):Linux" :=
  (C7_description_diff ⟨"EC2:t2.micro:Linux", []⟩ ⟨"EC2:t2.large:Linux", []⟩
    (by decide) (by decide)).trans (by decide)

/-- C8: in the cases without a difference `formatDescription` returns a usage
operation verbatim: that of the before-price when only it is present, that of the
current price when only it is present, and the common value when both are present
with equal usage operations, as for `EC2:t2.micro` against `EC2:t2.micro`. -/
theorem C8_description_verbatim :
    (∀ bp : Price, formatDescription (some bp) none = Except.ok bp.UsageOperation) ∧
    (∀ p : Price, formatDescription none (some p) = Except.ok p.UsageOperation) ∧
    (∀ bp p : Price, bp.UsageOperation = p.UsageOperation →
      formatDescription (some bp) (some p) = Except.ok bp.UsageOperation ∧
      formatDescription (some bp) (some p) = Except.ok p.UsageOperation) ∧
    (∀ dims dims' : List PriceDimension,
      formatDescription (some ⟨"EC2:t2.micro", dims⟩) (some ⟨"EC2:t2.micro", dims'⟩) =
        Except.ok "EC2:t2.micro") := by
  refine ⟨fun bp => rfl, fun p => rfl, ?_, ?_⟩
  · intro bp p h
    simp [formatDescription, h]
  · intro dims dims'
    simp [formatDescription]

/-- Witness of C8: equal usage operations on prices with different rates. -/
theorem C8_description_verbatim_witness :
    formatDescription (some ⟨"EC2:t2.micro", [⟨"0.25"⟩]⟩) (some ⟨"EC2:t2.micro", [⟨"0.5"⟩]⟩) =
      Except.ok "EC2:t2.micro" :=
  (C8_description_verbatim.2.2.1 ⟨"EC2:t2.micro", [⟨"0.25"⟩]⟩ ⟨"EC2:t2.micro", [⟨"0.5"⟩]⟩
    rfl).1

/-- Counterexample to C9: the before-price has two segments and the current price
three, and `formatDescription` returns a description, in which the third segment of
the current price does not appear, instead of failing. -/
theorem C9_counterexample :
    (strings.Split "EC2:t2.micro" ':').length ≠ (strings.Split "EC2:t2.large:Linux" ':').length ∧
    formatDescription (some ⟨"EC2:t2.micro", []⟩) (some ⟨"EC2:t2.large:Linux", []⟩) =
      Except.ok "EC2:(t2.micro -> t2.large)" := by
  decide

/-- C9, amended: for every before-price and current price that are both present,
whose usage operations differ and where the current price has more segments than
the before-price, `formatDescription` raises no error: it returns the colon-join of
the per-index texts over the indices of the before-price, so the further segments
of the current price are left out. -/
theorem C9_longer_after_truncated (bp p : Price)
    (hne : bp.UsageOperation ≠ p.UsageOperation)
    (hlen : (strings.Split bp.UsageOperation ':').length <
      (strings.Split p.UsageOperation ':').length) :
    formatDescription (some bp) (some p) =
      Except.ok (strings.Join
        (List.zipWith (fun beforeSeg afterSeg =>
            if beforeSeg = afterSeg then beforeSeg
            else "(" ++ beforeSeg ++ " -> " ++ afterSeg ++ ")")
          (strings.Split bp.UsageOperation ':')
          ((strings.Split p.UsageOperation ':').take
            (strings.Split bp.UsageOperation ':').length)) ":") := by
  simp only [formatDescription, hne, if_false]
  rw [diffLoop_ok _ _ 0 [] (by omega)]
  simp only [List.drop_zero, List.nil_append]
  have hz : ∀ (l l' : List String),
      List.zipWith diffSegment l (l'.take l.length) = List.zipWith diffSegment l l' := by
    intro l
    induction l with
    | nil => intro l'; simp
    | cons a rest ih =>
      intro l'
      cases l' with
      | nil => simp
      | cons b rest' => simp [ih rest']
  have hd : (fun beforeSeg afterSeg : String =>
      if beforeSeg = afterSeg then beforeSeg
      else "(" ++ beforeSeg ++ " -> " ++ afterSeg ++ ")") = diffSegment := rfl
  rw [hd, hz]

/-- Witness of C9, amended: `EC2:t2.micro` against `EC2:t2.large:Linux`. -/
theorem C9_longer_after_truncated_witness :
    formatDescription (some ⟨"EC2:t2.micro", []⟩) (some ⟨"EC2:t2.large:Linux", []⟩) =
      Except.ok "EC2:(t2.micro -> t2.large)" :=
  (C9_longer_after_truncated ⟨"EC2:t2.micro", []⟩ ⟨"EC2:t2.large:Linux", []⟩
    (by decide) (by decide)).trans (by decide)

/-! ## Rates that do not parse -/

theorem addTableRow_malformedRateExample :
    addTableRow plainLib ⟨[], 0, 0, 0⟩ malformedRateExample ⟨"AmazonEC2", "EC2:t2.micro"⟩ =
      Except.ok ⟨[Row.cost "[yellow]~[reset] aws_instance.web" "EC2:t2.micro" 0 0 (-365)],
        0, 0, -365⟩ := by
  have hd : formatDescription (some ⟨"EC2:t2.micro", [⟨"0.5"⟩]⟩)
      (some ⟨"EC2:t2.micro", [⟨"abc"⟩]⟩) = Except.ok "EC2:t2.micro" := by
    decide
  have hb : findBeforePrice malformedRateExample.Before ⟨"AmazonEC2", "EC2:t2.micro"⟩ =
      some ⟨"EC2:t2.micro", [⟨"0.5"⟩]⟩ := by decide
  have ha : malformedRateExample.After.get ⟨"AmazonEC2", "EC2:t2.micro"⟩ =
      some ⟨"EC2:t2.micro", [⟨"abc"⟩]⟩ := by decide
  have hf : formatAddress plainLib malformedRateExample =
      "[yellow]~[reset] aws_instance.web" := by
    decide
  have hp : plainLib.ParseFloat = parsePlainDecimal := rfl
  simp only [addTableRow, hb, ha, hf, firstDimension, List.head?, hp,
    parsePlainDecimal_half, parsePlainDecimal_abc, Option.isSome, if_true, hd]
  norm_num

/-- Counterexample to C10: the rate text `abc` of the after-price does not parse,
and `addTableRow` returns a table all the same, with a row whose hourly cost is the
substituted `0` and with the delta `(0 - 0.5) * 730` added to the totals. -/
theorem C10_counterexample :
    (plainLib.ParseFloat "abc").2 = true ∧
    firstRateMalformed plainLib
      (malformedRateExample.After.get ⟨"AmazonEC2", "EC2:t2.micro"⟩) = true ∧
    addTableRow plainLib ⟨[], 0, 0, 0⟩ malformedRateExample ⟨"AmazonEC2", "EC2:t2.micro"⟩ =
      Except.ok ⟨[Row.cost "[yellow]~[reset] aws_instance.web" "EC2:t2.micro" 0 0 (-365)],
        0, 0, -365⟩ := by
  have hp : plainLib.ParseFloat = parsePlainDecimal := rfl
  have ha : malformedRateExample.After.get ⟨"AmazonEC2", "EC2:t2.micro"⟩ =
      some ⟨"EC2:t2.micro", [⟨"abc"⟩]⟩ := by decide
  refine ⟨?_, ?_, addTableRow_malformedRateExample⟩
  · rw [hp, parsePlainDecimal_abc]
  · rw [ha]
    simp only [firstRateMalformed, hp, parsePlainDecimal_abc]

/-- C10, amended: for every row whose before-price or after-price has a first
dimension whose rate text does not parse, `addTableRow` surfaces no condition:
when it returns, the row and the totals are computed from the values that
`ParseFloat` returned together with its errors, exactly as for rates that parse. -/
theorem C10_parse_error_discarded (lib : Lib) (pricing pricing' : pricingTable)
    (res : Resource) (priceID : PriceID)
    (_hbad : firstRateMalformed lib (res.After.get priceID) = true ∨
      firstRateMalformed lib (findBeforePrice res.Before priceID) = true)
    (h : addTableRow lib pricing res priceID = Except.ok pricing') :
    ∃ description : String,
      pricing'.tableData = pricing.tableData ++
        [Row.cost (formatAddress lib res) description
          (parsedFirstRate lib (res.After.get priceID))
          (parsedFirstRate lib (res.After.get priceID) * 730)
          ((parsedFirstRate lib (res.After.get priceID) -
            parsedFirstRate lib (findBeforePrice res.Before priceID)) * 730)] ∧
      pricing'.hourlyTotal = pricing.hourlyTotal + parsedFirstRate lib (res.After.get priceID) ∧
      pricing'.monthlyTotal =
        pricing.monthlyTotal + parsedFirstRate lib (res.After.get priceID) * 730 ∧
      pricing'.monthlyTotalDelta = pricing.monthlyTotalDelta +
        (parsedFirstRate lib (res.After.get priceID) -
          parsedFirstRate lib (findBeforePrice res.Before priceID)) * 730 := by
  obtain ⟨description, hp⟩ := addTableRow_ok lib pricing pricing' res priceID h
  subst hp
  exact ⟨description, rfl, rfl, rfl, rfl⟩

/-- Witness of C10, amended: the update whose new rate text is `abc`. -/
theorem C10_parse_error_discarded_witness :
    ∃ description : String,
      [Row.cost "[yellow]~[reset] aws_instance.web" "EC2:t2.micro" 0 0 (-365)] =
        ([] : List Row) ++
        [Row.cost (formatAddress plainLib malformedRateExample) description
          (parsedFirstRate plainLib
            (malformedRateExample.After.get ⟨"AmazonEC2", "EC2:t2.micro"⟩))
          (parsedFirstRate plainLib
            (malformedRateExample.After.get ⟨"AmazonEC2", "EC2:t2.micro"⟩) * 730)
          ((parsedFirstRate plainLib
              (malformedRateExample.After.get ⟨"AmazonEC2", "EC2:t2.micro"⟩) -
            parsedFirstRate plainLib
              (findBeforePrice malformedRateExample.Before ⟨"AmazonEC2", "EC2:t2.micro"⟩)) *
            730)] ∧
      (0 : ℚ) = 0 + parsedFirstRate plainLib
        (malformedRateExample.After.get ⟨"AmazonEC2", "EC2:t2.micro"⟩) ∧
      (0 : ℚ) = 0 + parsedFirstRate plainLib
        (malformedRateExample.After.get ⟨"AmazonEC2", "EC2:t2.micro"⟩) * 730 ∧
      (-365 : ℚ) = 0 +
        (parsedFirstRate plainLib
            (malformedRateExample.After.get ⟨"AmazonEC2", "EC2:t2.micro"⟩) -
          parsedFirstRate plainLib
            (findBeforePrice malformedRateExample.Before ⟨"AmazonEC2", "EC2:t2.micro"⟩)) *
          730 :=
  C10_parse_error_discarded plainLib ⟨[], 0, 0, 0⟩
    ⟨[Row.cost "[yellow]~[reset] aws_instance.web" "EC2:t2.micro" 0 0 (-365)], 0, 0, -365⟩
    malformedRateExample ⟨"AmazonEC2", "EC2:t2.micro"⟩
    (Or.inl (by
      have hp : plainLib.ParseFloat = parsePlainDecimal := rfl
      have ha : malformedRateExample.After.get ⟨"AmazonEC2", "EC2:t2.micro"⟩ =
          some ⟨"EC2:t2.micro", [⟨"abc"⟩]⟩ := by decide
      rw [ha]
      simp only [firstRateMalformed, hp, parsePlainDecimal_abc]))
    addTableRow_malformedRateExample

/-! ## The loop as a sequence of rows -/

theorem addTableRow_eq_rowOf (lib : Lib) (pricing : pricingTable) (res : Resource)
    (priceID : PriceID) :
    addTableRow lib pricing res priceID =
      match rowOf lib res priceID with
      | Except.error e => Except.error e
      | Except.ok row => Except.ok (appendRow pricing row) := by
  unfold addTableRow rowOf currentPrice
  simp only [firstDimension_rate]
  cases formatDescription (findBeforePrice res.Before priceID)
      (if (firstDimension (res.After.get priceID)).isSome = true then res.After.get priceID
      else if (findBeforePrice res.Before priceID).isSome = true then
        findBeforePrice res.Before priceID
      else res.After.get priceID) <;> rfl

theorem foldl_appendRow (rows : List Row) (pricing : pricingTable) :
    rows.foldl appendRow pricing =
      { tableData := pricing.tableData ++ rows
        hourlyTotal := pricing.hourlyTotal + sumHourly rows
        monthlyTotal := pricing.monthlyTotal + sumMonthly rows
        monthlyTotalDelta := pricing.monthlyTotalDelta + sumDelta rows } := by
  induction rows generalizing pricing with
  | nil => simp [sumHourly, sumMonthly, sumDelta]
  | cons row rest ih =>
    rw [List.foldl_cons, ih]
    cases row with
    | unknown address =>
      simp [appendRow, accumulate, Row.costs, sumHourly, sumMonthly, sumDelta]
    | cost address description h m d =>
      simp [appendRow, accumulate, Row.costs, sumHourly, sumMonthly, sumDelta, add_assoc]

/-- The loop over the PriceIDs returns exactly when every PriceID has a row, and
then it has appended these rows in the order of the PriceIDs. -/
theorem foldlM_addTableRow_iff (lib : Lib) (res : Resource) (ks : List PriceID)
    (pricing pricing' : pricingTable) :
    ks.foldlM (fun pricing priceChange => addTableRow lib pricing res priceChange) pricing =
        Except.ok pricing' ↔
      ∃ rows : List Row, List.Forall₂ (fun k row => rowOf lib res k = Except.ok row) ks rows ∧
        pricing' = rows.foldl appendRow pricing := by
  induction ks generalizing pricing with
  | nil =>
    simp only [List.foldlM_nil, List.forall₂_nil_left_iff]
    constructor
    · intro h
      cases h
      exact ⟨[], rfl, rfl⟩
    · rintro ⟨rows, hrows, hp⟩
      subst hrows
      subst hp
      rfl
  | cons k rest ih =>
    rw [List.foldlM_cons, addTableRow_eq_rowOf]
    cases hrow : rowOf lib res k with
    | error e =>
      constructor
      · intro h
        cases h
      · rintro ⟨rows, hrows, _⟩
        cases hrows with
        | cons h1 _ =>
          rw [hrow] at h1
          cases h1
    | ok row =>
      have hbind : ∀ (x : pricingTable) (f : pricingTable → Except Fault pricingTable),
          ((Except.ok x : Except Fault pricingTable) >>= f) = f x := fun _ _ => rfl
      simp only [hbind]
      rw [ih]
      constructor
      · rintro ⟨rows, hrows, hp⟩
        exact ⟨row :: rows, List.Forall₂.cons hrow hrows, by rw [hp, List.foldl_cons]⟩
      · rintro ⟨rows, hrows, hp⟩
        cases hrows with
        | cons h1 h2 =>
          rename_i row' rows'
          rw [hrow] at h1
          cases h1
          exact ⟨rows', h2, by rw [hp, List.foldl_cons]⟩

/-- The loop body of `FormatTable` returns exactly when the resource has a block of
rows, and then it has appended the block. -/
theorem processResource_iff (lib : Lib) (res : Resource) (pricing pricing' : pricingTable) :
    processResource lib pricing res = Except.ok pricing' ↔
      ∃ rows : List Row, IsBlock lib res rows ∧ pricing' = rows.foldl appendRow pricing := by
  unfold processResource IsBlock drivingSet
  by_cases hempty : res.Before.length = 0 ∧ res.After.length = 0
  · simp only [hempty, and_self, if_true]
    constructor
    · intro h
      cases h
      refine ⟨[Row.unknown (formatAddress lib res)], rfl, ?_⟩
      simp [appendRow, accumulate, Row.costs]
    · rintro ⟨rows, hrows, hp⟩
      subst hrows
      subst hp
      simp [appendRow, accumulate, Row.costs]
  · simp only [hempty, if_false]
    by_cases hdel : res.Action = "delete"
    · simp only [hdel, if_true]
      exact foldlM_addTableRow_iff lib res _ pricing pricing'
    · simp only [hdel, if_false]
      exact foldlM_addTableRow_iff lib res _ pricing pricing'

theorem resourceRows_iff (lib : Lib) (res : Resource) (rows : List Row) :
    resourceRows lib res = Except.ok rows ↔ IsBlock lib res rows := by
  unfold resourceRows
  constructor
  · intro h
    cases hp : processResource lib emptyTable res with
    | error e =>
      rw [hp] at h
      cases h
    | ok pricing =>
      rw [hp] at h
      obtain ⟨rows', hblock, hfold⟩ := (processResource_iff lib res emptyTable pricing).mp hp
      have hrows : pricing.tableData = rows' := by
        rw [hfold, foldl_appendRow]
        simp [emptyTable]
      cases h
      rw [hrows]
      exact hblock
  · intro hblock
    have hp := (processResource_iff lib res emptyTable (rows.foldl appendRow emptyTable)).mpr
      ⟨rows, hblock, rfl⟩
    rw [hp]
    simp only [foldl_appendRow]
    simp [emptyTable]

/-- The loop over the resources returns exactly when every resource has a block of
rows, and then it has appended the blocks in the order of the resources. -/
theorem foldlM_processResource_iff (lib : Lib) (resources : List Resource)
    (pricing pricing' : pricingTable) :
    resources.foldlM (processResource lib) pricing = Except.ok pricing' ↔
      ∃ blocks : List (List Row), List.Forall₂ (IsBlock lib) resources blocks ∧
        pricing' = blocks.flatten.foldl appendRow pricing := by
  induction resources generalizing pricing with
  | nil =>
    simp only [List.foldlM_nil, List.forall₂_nil_left_iff]
    constructor
    · intro h
      cases h
      exact ⟨[], rfl, rfl⟩
    · rintro ⟨blocks, hblocks, hp⟩
      subst hblocks
      subst hp
      rfl
  | cons res rest ih =>
    rw [List.foldlM_cons]
    cases hres : processResource lib pricing res with
    | error e =>
      constructor
      · intro h
        cases h
      · rintro ⟨blocks, hblocks, _⟩
        obtain ⟨block, blocks', h1, _, _⟩ := List.forall₂_cons_left_iff.mp hblocks
        have hp := (processResource_iff lib res pricing
          (block.foldl appendRow pricing)).mpr ⟨block, h1, rfl⟩
        rw [hres] at hp
        cases hp
    | ok pricing1 =>
      have hbind : ∀ (x : pricingTable) (f : pricingTable → Except Fault pricingTable),
          ((Except.ok x : Except Fault pricingTable) >>= f) = f x := fun _ _ => rfl
      simp only [hbind]
      rw [ih]
      obtain ⟨block, hblock, hp1⟩ := (processResource_iff lib res pricing pricing1).mp hres
      constructor
      · rintro ⟨blocks, hblocks, hp⟩
        refine ⟨block :: blocks, List.Forall₂.cons hblock hblocks, ?_⟩
        rw [hp, hp1, List.flatten_cons, List.foldl_append]
      · rintro ⟨blocks, hblocks, hp⟩
        obtain ⟨block', blocks', h1, h2, hcons⟩ := List.forall₂_cons_left_iff.mp hblocks
        have hp' := (processResource_iff lib res pricing
          (block'.foldl appendRow pricing)).mpr ⟨block', h1, rfl⟩
        rw [hres] at hp'
        cases hp'
        exact ⟨blocks', h2, by rw [hp, hcons, List.flatten_cons, List.foldl_append]⟩

theorem parsePlainDecimal_s3 : parsePlainDecimal "0.023" = (23 / 1000, false) := by
  simp [parsePlainDecimal, readDecimal, readDigits]
  norm_num

theorem mem_ofEntries (entries : List (PriceID × Price)) (e : PriceID × Price)
    (he : e ∈ entries) : (e.1, some e.2) ∈ ByID.ofEntries entries :=
  List.mem_map.mpr ⟨e, he, rfl⟩

theorem keys_ofEntries (entries : List (PriceID × Price)) :
    (ByID.ofEntries entries).keys = entries.map Prod.fst := by
  simp [ByID.ofEntries, ByID.keys, List.map_map, Function.comp_def]

/-- Rows given entry by entry are the rows of the loop over the keys. -/
theorem forall₂_rowOf_entries (lib : Lib) (res : Resource) (entries : List (PriceID × Price))
    (g : PriceID × Price → Row) (hg : ∀ e ∈ entries, rowOf lib res e.1 = Except.ok (g e)) :
    List.Forall₂ (fun k row => rowOf lib res k = Except.ok row)
      (ByID.ofEntries entries).keys (entries.map g) := by
  rw [keys_ofEntries]
  induction entries with
  | nil => exact List.Forall₂.nil
  | cons e rest ih =>
    exact List.Forall₂.cons (hg e (List.mem_cons_self _ _))
      (ih (fun e' he' => hg e' (List.mem_cons_of_mem _ he')))

/-- The row of a removed price: no after-price, the before-price found under its
own key. -/
theorem rowOf_removed (lib : Lib) (res : Resource) (k : PriceID) (bp : Price)
    (hafter : res.After.get k = none) (hbefore : findBeforePrice res.Before k = some bp) :
    rowOf lib res k =
      Except.ok (Row.cost (formatAddress lib res) bp.UsageOperation 0 0
        ((0 - parsedFirstRate lib (some bp)) * 730)) := by
  simp [rowOf, currentPrice, hafter, hbefore, firstDimension, formatDescription,
    parsedFirstRate]

/-- C11: for every resource with action `delete`, an empty after map and a non-empty
before map (of prices, under distinct keys), processing it appends exactly one row
for each before entry, in `range` order, with hourly cost `0`, monthly cost `0`,
monthly delta `(0 - r) * 730` for the parsed first-dimension rate `r` of the entry,
and the usage operation of the entry as its description. -/
theorem C11_delete_rows (lib : Lib) (pricing : pricingTable) (res : Resource)
    (entries : List (PriceID × Price)) (hact : res.Action = "delete")
    (hafter : res.After = []) (hbefore : res.Before = ByID.ofEntries entries)
    (hne : entries ≠ []) (hwf : res.Before.WF) :
    ∃ pricing' : pricingTable,
      processResource lib pricing res = Except.ok pricing' ∧
      pricing'.tableData = pricing.tableData ++
        entries.map (fun e =>
          Row.cost (formatAddress lib res) e.2.UsageOperation 0 0
            ((0 - parsedFirstRate lib (some e.2)) * 730)) := by
  have hrows : ∀ e ∈ entries, rowOf lib res e.1 =
      Except.ok (Row.cost (formatAddress lib res) e.2.UsageOperation 0 0
        ((0 - parsedFirstRate lib (some e.2)) * 730)) := by
    intro e he
    apply rowOf_removed
    · simp [hafter, ByID.get, ByID.lookup]
    · have hmem : (e.1, some e.2) ∈ res.Before := by
        rw [hbefore]
        exact mem_ofEntries entries e he
      simp only [findBeforePrice, lookup_of_mem res.Before e.1 (some e.2) hwf hmem]
  have hnonempty : ¬ (res.Before.length = 0 ∧ res.After.length = 0) := by
    rintro ⟨hb, _⟩
    rw [hbefore] at hb
    cases entries with
    | nil => exact hne rfl
    | cons e rest => simp [ByID.ofEntries] at hb
  have hblock : IsBlock lib res (entries.map (fun e =>
      Row.cost (formatAddress lib res) e.2.UsageOperation 0 0
        ((0 - parsedFirstRate lib (some e.2)) * 730))) := by
    simp only [IsBlock, hnonempty, if_false, drivingSet, hact, if_true]
    rw [hbefore]
    exact forall₂_rowOf_entries lib res entries _ hrows
  refine ⟨_, (processResource_iff lib res pricing _).mpr ⟨_, hblock, rfl⟩, ?_⟩
  rw [foldl_appendRow]

/-- Witness of C11: the removal of `S3:Standard` at `0.023` gives one row with the
delta `-0.023 * 730` and the description `S3:Standard`. -/
theorem C11_delete_rows_witness :
    (0 - parsedFirstRate plainLib (some ⟨"S3:Standard", [⟨"0.023"⟩]⟩)) * 730 =
      -(23 / 1000) * 730 ∧
    ∃ pricing' : pricingTable,
      processResource plainLib emptyTable s3DeleteExample = Except.ok pricing' ∧
      pricing'.tableData = emptyTable.tableData ++
        [((⟨"AmazonS3", "S3:Standard"⟩, ⟨"S3:Standard", [⟨"0.023"⟩]⟩) :
            PriceID × Price)].map (fun e =>
          Row.cost (formatAddress plainLib s3DeleteExample) e.2.UsageOperation 0 0
            ((0 - parsedFirstRate plainLib (some e.2)) * 730)) :=
  ⟨by
      have hp : plainLib.ParseFloat = parsePlainDecimal := rfl
      simp only [parsedFirstRate, hp, parsePlainDecimal_s3]
      norm_num,
    C11_delete_rows plainLib emptyTable s3DeleteExample
      [(⟨"AmazonS3", "S3:Standard"⟩, ⟨"S3:Standard", [⟨"0.023"⟩]⟩)] rfl rfl rfl
      (by simp) (by decide)⟩

theorem rowOf_ok_shape (lib : Lib) (res : Resource) (k : PriceID) (row : Row)
    (h : rowOf lib res k = Except.ok row) :
    ∃ description : String,
      row = Row.cost (formatAddress lib res) description
        (parsedFirstRate lib (res.After.get k))
        (parsedFirstRate lib (res.After.get k) * 730)
        ((parsedFirstRate lib (res.After.get k) -
          parsedFirstRate lib (findBeforePrice res.Before k)) * 730) := by
  unfold rowOf at h
  split at h
  · cases h
  · rename_i description _
    cases h
    exact ⟨description, rfl⟩

/-- C12: for every resource, the rows that processing it appends are either the
single row of an unknown resource, when both maps are empty, or exactly one cost
row for each PriceID of its driving set, in `range` order, the driving set being
the before map when the action is `delete` and the after map for every other
action; so the number of rows is then the size of the driving set. -/
theorem C12_rows_per_driving_key (lib : Lib) (pricing pricing' : pricingTable)
    (res : Resource) (h : processResource lib pricing res = Except.ok pricing') :
    (res.Before = [] ∧ res.After = [] ∧
      pricing'.tableData = pricing.tableData ++ [Row.unknown (formatAddress lib res)]) ∨
    (¬ (res.Before = [] ∧ res.After = []) ∧
      ∃ rows : List Row,
        pricing'.tableData = pricing.tableData ++ rows ∧
        rows.length = (if res.Action = "delete" then res.Before else res.After).length ∧
        List.Forall₂
          (fun k row => ∃ description : String,
            row = Row.cost (formatAddress lib res) description
              (parsedFirstRate lib (res.After.get k))
              (parsedFirstRate lib (res.After.get k) * 730)
              ((parsedFirstRate lib (res.After.get k) -
                parsedFirstRate lib (findBeforePrice res.Before k)) * 730))
          (if res.Action = "delete" then res.Before else res.After).keys rows) := by
  obtain ⟨rows, hblock, hfold⟩ := (processResource_iff lib res pricing pricing').mp h
  have htable : pricing'.tableData = pricing.tableData ++ rows := by
    rw [hfold, foldl_appendRow]
  unfold IsBlock at hblock
  by_cases hempty : res.Before.length = 0 ∧ res.After.length = 0
  · left
    simp only [hempty, and_self, if_true] at hblock
    refine ⟨List.length_eq_zero.mp hempty.1, List.length_eq_zero.mp hempty.2, ?_⟩
    rw [htable, hblock]
  · right
    simp only [hempty, if_false] at hblock
    refine ⟨fun hnil => hempty ⟨by rw [hnil.1]; rfl, by rw [hnil.2]; rfl⟩, rows, htable, ?_, ?_⟩
    · have hlen := hblock.length_eq
      simp only [ByID.keys, List.length_map, drivingSet] at hlen
      exact hlen.symm
    · exact hblock.imp (fun k row hrow => rowOf_ok_shape lib res k row hrow)

/-- Witness of C12: the update of one price gives one row. -/
theorem C12_rows_per_driving_key_witness :
    (updateExample.Before = [] ∧ updateExample.After = [] ∧
      updateExampleTable.tableData =
        emptyTable.tableData ++ [Row.unknown (formatAddress plainLib updateExample)]) ∨
    (¬ (updateExample.Before = [] ∧ updateExample.After = []) ∧
      ∃ rows : List Row,
        updateExampleTable.tableData = emptyTable.tableData ++ rows ∧
        rows.length =
          (if updateExample.Action = "delete" then updateExample.Before
            else updateExample.After).length ∧
        List.Forall₂
          (fun k row => ∃ description : String,
            row = Row.cost (formatAddress plainLib updateExample) description
              (parsedFirstRate plainLib (updateExample.After.get k))
              (parsedFirstRate plainLib (updateExample.After.get k) * 730)
              ((parsedFirstRate plainLib (updateExample.After.get k) -
                parsedFirstRate plainLib (findBeforePrice updateExample.Before k)) * 730))
          (if updateExample.Action = "delete" then updateExample.Before
            else updateExample.After).keys rows) :=
  C12_rows_per_driving_key plainLib emptyTable updateExampleTable updateExample
    (by
      have hk : updateExample.After.keys = [⟨"AmazonEC2", "EC2:t2.large"⟩] := rfl
      have hb : ¬ (updateExample.Before.length = 0 ∧ updateExample.After.length = 0) := by
        decide
      have ha : ¬ updateExample.Action = "delete" := by decide
      simp only [processResource, hb, ha, if_false, hk, List.foldlM_cons, List.foldlM_nil]
      have h0 : emptyTable = ⟨[], 0, 0, 0⟩ := rfl
      rw [h0, addTableRow_updateExample_zero]
      rfl)

/-- C13: for every list of resources, the row sequence with which the loop of
`FormatTable` ends is the concatenation, in the order of the resources, of the
block of rows of each resource, the block being the rows that the loop body emits
for that resource alone. -/
theorem C13_rows_are_blocks_in_order (lib : Lib) (resources : List Resource)
    (pricing : pricingTable) (h : FormatTable lib resources = Except.ok pricing) :
    ∃ blocks : List (List Row),
      List.Forall₂ (fun res block => resourceRows lib res = Except.ok block) resources blocks ∧
      pricing.tableData = blocks.flatten := by
  obtain ⟨blocks, hblocks, hfold⟩ :=
    (foldlM_processResource_iff lib resources _ pricing).mp h
  refine ⟨blocks, hblocks.imp (fun res block hb => (resourceRows_iff lib res block).mpr hb), ?_⟩
  rw [hfold, foldl_appendRow]
  simp

/-- Witness of C13: the pass over a resource without prices and an update. -/
theorem C13_rows_are_blocks_in_order_witness :
    ∃ blocks : List (List Row),
      List.Forall₂ (fun res block => resourceRows plainLib res = Except.ok block)
        [noPriceExample, updateExample] blocks ∧
      twoResourceTable.tableData = blocks.flatten :=
  C13_rows_are_blocks_in_order plainLib [noPriceExample, updateExample] twoResourceTable
    FormatTable_twoResources

/-! ## Enumeration orders -/

theorem WF_perm (m m' : ByID) (hperm : m'.Perm m) (hwf : m.WF) : m'.WF := by
  unfold ByID.WF ByID.keys at *
  exact (hperm.map Prod.fst).nodup_iff.mpr hwf

/-- The index expressions do not depend on the enumeration order of a map. -/
theorem lookup_perm (m m' : ByID) (hperm : m'.Perm m) (hwf : m.WF) (k : PriceID) :
    m'.lookup k = m.lookup k := by
  cases hl : m.lookup k with
  | none =>
    have hk : k ∉ m.keys := (lookup_eq_none_iff m k).mp hl
    apply (lookup_eq_none_iff m' k).mpr
    intro hin
    exact hk ((hperm.map Prod.fst).mem_iff.mp hin)
  | some v =>
    exact lookup_of_mem m' k v (WF_perm m m' hperm hwf) (hperm.mem_iff.mpr (lookup_mem m k v hl))

theorem rowOf_congr (lib : Lib) (res res' : Resource) (k : PriceID)
    (haddr : res'.Address = res.Address) (hact : res'.Action = res.Action)
    (hafter : res'.After.get k = res.After.get k)
    (hbefore : findBeforePrice res'.Before k = findBeforePrice res.Before k) :
    rowOf lib res' k = rowOf lib res k := by
  have hf : formatAddress lib res' = formatAddress lib res := by
    simp only [formatAddress, haddr, hact]
  simp only [rowOf, currentPrice, hafter, hbefore, hf]

theorem forall₂_imp_of_mem {α β : Type} {R S : α → β → Prop} {l : List α} {u : List β}
    (h : List.Forall₂ R l u) (himp : ∀ a ∈ l, ∀ b, R a b → S a b) : List.Forall₂ S l u := by
  induction h with
  | nil => exact List.Forall₂.nil
  | cons hab _ ih =>
    exact List.Forall₂.cons (himp _ (List.mem_cons_self _ _) _ hab)
      (ih (fun a ha b => himp a (List.mem_cons_of_mem _ ha) b))

/-- Two enumerations of the maps of a resource that resolve the same before-price
for every PriceID of the driving set have the same block of rows up to the order of
the rows. -/
theorem IsBlock_perm (lib : Lib) (res res' : Resource)
    (haddr : res'.Address = res.Address) (hact : res'.Action = res.Action)
    (hB : res'.Before.Perm res.Before) (hA : res'.After.Perm res.After)
    (hwf : res.After.WF)
    (hfix : ∀ k ∈ (drivingSet res).keys,
      findBeforePrice res'.Before k = findBeforePrice res.Before k)
    (rows : List Row) (h : IsBlock lib res rows) :
    ∃ rows' : List Row, IsBlock lib res' rows' ∧ rows'.Perm rows := by
  have hf : formatAddress lib res' = formatAddress lib res := by
    simp only [formatAddress, haddr, hact]
  have hrow : ∀ k ∈ (drivingSet res).keys, rowOf lib res' k = rowOf lib res k :=
    fun k hk =>
      rowOf_congr lib res res' k haddr hact
        (by simp only [ByID.get, lookup_perm res.After res'.After hA hwf k]) (hfix k hk)
  unfold IsBlock at h ⊢
  by_cases hempty : res.Before.length = 0 ∧ res.After.length = 0
  · have hempty' : res'.Before.length = 0 ∧ res'.After.length = 0 :=
      ⟨by rw [hB.length_eq]; exact hempty.1, by rw [hA.length_eq]; exact hempty.2⟩
    simp only [hempty, and_self, if_true] at h
    simp only [hempty', and_self, if_true]
    exact ⟨rows, by rw [h, hf], List.Perm.refl _⟩
  · have hempty' : ¬ (res'.Before.length = 0 ∧ res'.After.length = 0) := by
      rw [hB.length_eq, hA.length_eq]
      exact hempty
    simp only [hempty, if_false] at h
    simp only [hempty', if_false]
    have hkeys : (drivingSet res').keys.Perm (drivingSet res).keys := by
      unfold drivingSet ByID.keys
      rw [hact]
      split
      · exact hB.map Prod.fst
      · exact hA.map Prod.fst
    have hcomp : (Relation.Comp List.Perm
        (List.Forall₂ (fun k row => rowOf lib res k = Except.ok row)))
        (drivingSet res').keys rows := ⟨_, hkeys, h⟩
    rw [← List.forall₂_comp_perm_eq_perm_comp_forall₂] at hcomp
    obtain ⟨rows', hrows', hperm⟩ := hcomp
    refine ⟨rows', forall₂_imp_of_mem hrows' ?_, hperm⟩
    intro k hk row hkrow
    rw [hrow k (hkeys.mem_iff.mp hk)]
    exact hkrow

theorem rowOf_created (lib : Lib) (res : Resource) (k : PriceID) (p : Price)
    (d : PriceDimension) (rest : List PriceDimension)
    (hafter : res.After.get k = some p) (hdims : p.Dimensions = d :: rest)
    (hbefore : findBeforePrice res.Before k = none) :
    rowOf lib res k =
      Except.ok (Row.cost (formatAddress lib res) p.UsageOperation
        (lib.ParseFloat d.PricePerUnit).1 ((lib.ParseFloat d.PricePerUnit).1 * 730)
        ((lib.ParseFloat d.PricePerUnit).1 * 730)) := by
  simp [rowOf, currentPrice, hafter, hbefore, firstDimension, formatDescription,
    parsedFirstRate, hdims]

theorem resourceRows_createExample :
    resourceRows plainLib createExample =
      Except.ok [Row.cost "[green]+[reset] aws_instance.web" "EC2:BoxUsage"
          (1 / 4) (365 / 2) (365 / 2),
        Row.cost "[green]+[reset] aws_instance.web" "EC2:RunInstance" (1 / 2) 365 365] := by
  have hp : plainLib.ParseFloat = parsePlainDecimal := rfl
  have hf : formatAddress plainLib createExample = "[green]+[reset] aws_instance.web" := by
    decide
  have h1 := rowOf_created plainLib createExample ⟨"AmazonEC2", "EC2:BoxUsage"⟩
    ⟨"EC2:BoxUsage", [⟨"0.25"⟩]⟩ ⟨"0.25"⟩ [] (by decide) rfl (by decide)
  have h2 := rowOf_created plainLib createExample ⟨"AmazonEC2", "EC2:RunInstance"⟩
    ⟨"EC2:RunInstance", [⟨"0.5"⟩]⟩ ⟨"0.5"⟩ [] (by decide) rfl (by decide)
  simp only [hp, hf, parsePlainDecimal_quarter, parsePlainDecimal_half] at h1 h2
  norm_num at h1 h2
  apply (resourceRows_iff _ _ _).mpr
  have hne : ¬ (createExample.Before.length = 0 ∧ createExample.After.length = 0) := by
    decide
  simp only [IsBlock, hne, if_false]
  exact List.Forall₂.cons h1 (List.Forall₂.cons h2 List.Forall₂.nil)

theorem resourceRows_createExampleReversed :
    resourceRows plainLib createExampleReversed =
      Except.ok [Row.cost "[green]+[reset] aws_instance.web" "EC2:RunInstance" (1 / 2) 365 365,
        Row.cost "[green]+[reset] aws_instance.web" "EC2:BoxUsage"
          (1 / 4) (365 / 2) (365 / 2)] := by
  have hp : plainLib.ParseFloat = parsePlainDecimal := rfl
  have hf : formatAddress plainLib createExampleReversed =
      "[green]+[reset] aws_instance.web" := by
    decide
  have h1 := rowOf_created plainLib createExampleReversed ⟨"AmazonEC2", "EC2:BoxUsage"⟩
    ⟨"EC2:BoxUsage", [⟨"0.25"⟩]⟩ ⟨"0.25"⟩ [] (by decide) rfl (by decide)
  have h2 := rowOf_created plainLib createExampleReversed ⟨"AmazonEC2", "EC2:RunInstance"⟩
    ⟨"EC2:RunInstance", [⟨"0.5"⟩]⟩ ⟨"0.5"⟩ [] (by decide) rfl (by decide)
  simp only [hp, hf, parsePlainDecimal_quarter, parsePlainDecimal_half] at h1 h2
  norm_num at h1 h2
  apply (resourceRows_iff _ _ _).mpr
  have hne : ¬ (createExampleReversed.Before.length = 0 ∧
      createExampleReversed.After.length = 0) := by
    decide
  simp only [IsBlock, hne, if_false]
  exact List.Forall₂.cons h2 (List.Forall₂.cons h1 List.Forall₂.nil)

/-- Counterexample to C14: the same after map enumerated in two orders gives two
different row sequences, and the scan of `findBeforePrice` over one before map
enumerated in two orders resolves two different before-prices. -/
theorem C14_counterexample :
    createExampleReversed.After.Perm createExample.After ∧
    createExampleReversed.Before = createExample.Before ∧
    createExampleReversed.Address = createExample.Address ∧
    createExampleReversed.Action = createExample.Action ∧
    (∃ rows rows' : List Row,
      resourceRows plainLib createExample = Except.ok rows ∧
      resourceRows plainLib createExampleReversed = Except.ok rows' ∧
      rows ≠ rows') ∧
    findBeforePrice twoEc2Prices ⟨"AmazonEC2", "EC2:t2.micro"⟩ ≠
      findBeforePrice twoEc2Prices.reverse ⟨"AmazonEC2", "EC2:t2.micro"⟩ := by
  refine ⟨List.reverse_perm _, rfl, rfl, rfl,
    ⟨_, _, resourceRows_createExample, resourceRows_createExampleReversed, ?_⟩, by decide⟩
  intro h
  have hd : ("EC2:BoxUsage" : String) = "EC2:RunInstance" := by
    injection h with h1 _
    injection h1
  exact absurd hd (by decide)

theorem resourceRows_deleteExample :
    resourceRows plainLib deleteExample =
      Except.ok [Row.cost "[red]-[reset] aws_instance.web" "EC2:BoxUsage" 0 0 (-(365 / 2)),
        Row.cost "[red]-[reset] aws_instance.web" "EC2:RunInstance" 0 0 (-365)] := by
  have hp : plainLib.ParseFloat = parsePlainDecimal := rfl
  have hf : formatAddress plainLib deleteExample = "[red]-[reset] aws_instance.web" := by
    decide
  have h1 := rowOf_removed plainLib deleteExample ⟨"AmazonEC2", "EC2:BoxUsage"⟩
    ⟨"EC2:BoxUsage", [⟨"0.25"⟩]⟩ (by decide) (by decide)
  have h2 := rowOf_removed plainLib deleteExample ⟨"AmazonEC2", "EC2:RunInstance"⟩
    ⟨"EC2:RunInstance", [⟨"0.5"⟩]⟩ (by decide) (by decide)
  simp only [hf, parsedFirstRate, hp, parsePlainDecimal_quarter, parsePlainDecimal_half]
    at h1 h2
  norm_num at h1 h2
  apply (resourceRows_iff _ _ _).mpr
  have hne : ¬ (deleteExample.Before.length = 0 ∧ deleteExample.After.length = 0) := by
    decide
  simp only [IsBlock, hne, if_false]
  exact List.Forall₂.cons h1 (List.Forall₂.cons h2 List.Forall₂.nil)

/-- C14, amended: the loop imposes no order of its own on the PriceIDs. For every
resource, two enumeration orders of its price maps that resolve the same before-price
for every PriceID of the driving set yield the same rows up to a permutation: when
the loop body returns a block of rows under one order, it returns a permutation of
that block under the other. -/
theorem C14_rows_up_to_order (lib : Lib) (res res' : Resource)
    (haddr : res'.Address = res.Address) (hact : res'.Action = res.Action)
    (hB : res'.Before.Perm res.Before) (hA : res'.After.Perm res.After)
    (hwf : res.After.WF)
    (hfix : ∀ k ∈ (if res.Action = "delete" then res.Before else res.After).keys,
      findBeforePrice res'.Before k = findBeforePrice res.Before k)
    (rows : List Row) (h : resourceRows lib res = Except.ok rows) :
    ∃ rows' : List Row, resourceRows lib res' = Except.ok rows' ∧ rows'.Perm rows := by
  obtain ⟨rows', hblock, hperm⟩ := IsBlock_perm lib res res' haddr hact hB hA hwf hfix rows
    ((resourceRows_iff lib res rows).mp h)
  exact ⟨rows', (resourceRows_iff lib res' rows').mpr hblock, hperm⟩

/-- Witness of C14, amended: the two enumerations of the before map of a removed
instance, its driving set; a PriceID outside the driving set resolves different
before-prices under the two enumerations. -/
theorem C14_rows_up_to_order_witness :
    findBeforePrice deleteExampleReversed.Before ⟨"AmazonEC2", "EC2:t2.micro"⟩ ≠
      findBeforePrice deleteExample.Before ⟨"AmazonEC2", "EC2:t2.micro"⟩ ∧
    ∃ rows' : List Row,
      resourceRows plainLib deleteExampleReversed = Except.ok rows' ∧
      rows'.Perm
        [Row.cost "[red]-[reset] aws_instance.web" "EC2:BoxUsage" 0 0 (-(365 / 2)),
        Row.cost "[red]-[reset] aws_instance.web" "EC2:RunInstance" 0 0 (-365)] :=
  ⟨by decide,
    C14_rows_up_to_order plainLib deleteExample deleteExampleReversed rfl rfl
      (List.reverse_perm _) (List.Perm.refl _) (by decide) (by decide) _
      resourceRows_deleteExample⟩

/-! ## Signs of the totals -/

theorem addTableRow_noDimensionExample :
    addTableRow plainLib emptyTable noDimensionExample ⟨"AmazonEC2", "EC2:t2.large"⟩ =
      Except.ok ⟨[Row.cost "[yellow]~[reset] aws_instance.web" "EC2:t2.micro" 0 0
        (-(365 / 2))], 0, 0, -(365 / 2)⟩ := by
  have hd : formatDescription (some ⟨"EC2:t2.micro", [⟨"0.25"⟩]⟩)
      (some ⟨"EC2:t2.micro", [⟨"0.25"⟩]⟩) = Except.ok "EC2:t2.micro" := by
    decide
  have hb : findBeforePrice noDimensionExample.Before ⟨"AmazonEC2", "EC2:t2.large"⟩ =
      some ⟨"EC2:t2.micro", [⟨"0.25"⟩]⟩ := by decide
  have ha : noDimensionExample.After.get ⟨"AmazonEC2", "EC2:t2.large"⟩ =
      some ⟨"EC2:t2.large", []⟩ := by decide
  have hf : formatAddress plainLib noDimensionExample =
      "[yellow]~[reset] aws_instance.web" := by
    decide
  have hp : plainLib.ParseFloat = parsePlainDecimal := rfl
  simp only [addTableRow, hb, ha, hf, firstDimension, List.head?, hp,
    parsePlainDecimal_quarter, Option.isSome, if_true, emptyTable]
  norm_num
  rw [hd]

/-- Counterexample to C16: the after-price is present, without dimensions, and a
before-price is resolved; the description of the row is the usage operation of the
before-price alone, not the result of `formatDescription` on the two prices. -/
theorem C16_counterexample :
    noDimensionExample.After.get ⟨"AmazonEC2", "EC2:t2.large"⟩ =
      some ⟨"EC2:t2.large", []⟩ ∧
    findBeforePrice noDimensionExample.Before ⟨"AmazonEC2", "EC2:t2.large"⟩ =
      some ⟨"EC2:t2.micro", [⟨"0.25"⟩]⟩ ∧
    formatDescription (some ⟨"EC2:t2.micro", [⟨"0.25"⟩]⟩) (some ⟨"EC2:t2.large", []⟩) =
      Except.ok "EC2:(t2.micro -> t2.large)" ∧
    addTableRow plainLib emptyTable noDimensionExample ⟨"AmazonEC2", "EC2:t2.large"⟩ =
      Except.ok ⟨[Row.cost "[yellow]~[reset] aws_instance.web" "EC2:t2.micro" 0 0
        (-(365 / 2))], 0, 0, -(365 / 2)⟩ :=
  ⟨by decide, by decide, by decide, addTableRow_noDimensionExample⟩

/-- C16, amended: the before-price is substituted as the current price of the row
when the after-price is absent or has no dimensions. For every row with a resolved
before-price: when `res.After[priceID]` is present with at least one dimension, the
description is computed by `formatDescription` from the before-price and that
after-price; when it is present without dimensions, or absent, the row is appended
with the usage operation of the before-price as its description. -/
theorem C16_substitution_without_dimensions (lib : Lib) (pricing : pricingTable)
    (res : Resource) (priceID : PriceID) (bp : Price)
    (hb : findBeforePrice res.Before priceID = some bp) :
    (∀ (p : Price) (d : PriceDimension) (rest : List PriceDimension),
      res.After.get priceID = some p → p.Dimensions = d :: rest →
      addTableRow lib pricing res priceID =
        match formatDescription (some bp) (some p) with
        | Except.error e => Except.error e
        | Except.ok description =>
          Except.ok (appendRow pricing
            (Row.cost (formatAddress lib res) description
              (lib.ParseFloat d.PricePerUnit).1 ((lib.ParseFloat d.PricePerUnit).1 * 730)
              (((lib.ParseFloat d.PricePerUnit).1 - parsedFirstRate lib (some bp)) * 730)))) ∧
    (∀ p : Price, res.After.get priceID = some p → p.Dimensions = [] →
      addTableRow lib pricing res priceID =
        Except.ok (appendRow pricing
          (Row.cost (formatAddress lib res) bp.UsageOperation 0 0
            ((0 - parsedFirstRate lib (some bp)) * 730)))) ∧
    (res.After.get priceID = none →
      addTableRow lib pricing res priceID =
        Except.ok (appendRow pricing
          (Row.cost (formatAddress lib res) bp.UsageOperation 0 0
            ((0 - parsedFirstRate lib (some bp)) * 730)))) := by
  refine ⟨?_, ?_, ?_⟩
  · intro p d rest ha hd
    rw [addTableRow_eq_rowOf]
    have hrow : rowOf lib res priceID =
        match formatDescription (some bp) (some p) with
        | Except.error e => Except.error e
        | Except.ok description =>
          Except.ok (Row.cost (formatAddress lib res) description
            (lib.ParseFloat d.PricePerUnit).1 ((lib.ParseFloat d.PricePerUnit).1 * 730)
            (((lib.ParseFloat d.PricePerUnit).1 - parsedFirstRate lib (some bp)) * 730)) := by
      simp [rowOf, currentPrice, ha, hb, firstDimension, hd, parsedFirstRate]
    rw [hrow]
    cases formatDescription (some bp) (some p) <;> rfl
  · intro p ha hd
    rw [addTableRow_eq_rowOf]
    have hrow : rowOf lib res priceID =
        Except.ok (Row.cost (formatAddress lib res) bp.UsageOperation 0 0
          ((0 - parsedFirstRate lib (some bp)) * 730)) := by
      simp [rowOf, currentPrice, ha, hb, firstDimension, hd, parsedFirstRate,
        formatDescription]
    rw [hrow]
  · intro ha
    rw [addTableRow_eq_rowOf, rowOf_removed lib res priceID bp ha hb]

/-- Witness of C16, amended: the after-price without dimensions of
`noDimensionExample`. -/
theorem C16_substitution_without_dimensions_witness :
    addTableRow plainLib emptyTable noDimensionExample ⟨"AmazonEC2", "EC2:t2.large"⟩ =
      Except.ok (appendRow emptyTable
        (Row.cost (formatAddress plainLib noDimensionExample) "EC2:t2.micro" 0 0
          ((0 - parsedFirstRate plainLib (some ⟨"EC2:t2.micro", [⟨"0.25"⟩]⟩)) * 730))) :=
  (C16_substitution_without_dimensions plainLib emptyTable noDimensionExample
    ⟨"AmazonEC2", "EC2:t2.large"⟩ ⟨"EC2:t2.micro", [⟨"0.25"⟩]⟩ (by decide)).2.1
    ⟨"EC2:t2.large", []⟩ (by decide) rfl

/-! ## No dereference of an absent current price -/

theorem diffLoop_fault (after before : List String) (i : Nat) (diffSegments : List String)
    (e : Fault) (h : diffLoop after i before diffSegments = Except.error e) :
    e = Fault.indexOutOfRange := by
  induction before generalizing i diffSegments with
  | nil =>
    simp only [diffLoop] at h
    cases h
  | cons beforeSeg rest ih =>
    simp only [diffLoop] at h
    split at h
    · cases h
      rfl
    · split at h
      · exact ih _ _ h
      · exact ih _ _ h

/-- The one way in which `formatDescription` dereferences a nil pointer is with both
prices absent. -/
theorem formatDescription_nilDereference_iff (beforePrice price : Option Price) :
    formatDescription beforePrice price = Except.error Fault.nilDereference ↔
      beforePrice = none ∧ price = none := by
  cases beforePrice with
  | none =>
    cases price with
    | none => simp [formatDescription]
    | some p => simp [formatDescription]
  | some bp =>
    cases price with
    | none => simp [formatDescription]
    | some p =>
      simp only [formatDescription]
      constructor
      · intro h
        split at h
        · cases h
        · split at h
          · cases h
          · rename_i e hloop
            cases h
            have := diffLoop_fault _ _ _ _ _ hloop
            cases this
      · rintro ⟨h1, _⟩
        cases h1

theorem get_of_key (m : ByID) (k : PriceID) (hnn : ∀ e ∈ m, e.2 ≠ none)
    (hk : k ∈ m.keys) : ∃ p : Price, m.lookup k = some (some p) := by
  cases hl : m.lookup k with
  | none => exact absurd hk ((lookup_eq_none_iff m k).mp hl)
  | some v =>
    cases v with
    | none => exact absurd rfl (hnn (k, none) (lookup_mem m k none hl))
    | some p => exact ⟨p, rfl⟩

/-- C17: for every resource whose before and after maps contain no nil price values
and every PriceID that the loop passes to `addTableRow`, a key of the before map for
a delete and a key of the after map otherwise, at least one of the resolved
before-price and the current price is present when `formatDescription` is called,
and `addTableRow` does not end in the dereference of a nil pointer. -/
theorem C17_no_nil_dereference (lib : Lib) (res : Resource) (priceID : PriceID)
    (hnb : ∀ e ∈ res.Before, e.2 ≠ none) (hna : ∀ e ∈ res.After, e.2 ≠ none)
    (hk : if res.Action = "delete" then priceID ∈ res.Before.keys
      else priceID ∈ res.After.keys) :
    ((findBeforePrice res.Before priceID).isSome = true ∨
      (currentPrice res priceID).isSome = true) ∧
    formatDescription (findBeforePrice res.Before priceID) (currentPrice res priceID) ≠
      Except.error Fault.nilDereference ∧
    ∀ pricing : pricingTable,
      addTableRow lib pricing res priceID ≠ Except.error Fault.nilDereference := by
  have hpresent : (findBeforePrice res.Before priceID).isSome = true ∨
      (currentPrice res priceID).isSome = true := by
    by_cases hdel : res.Action = "delete"
    · simp only [hdel, if_true] at hk
      obtain ⟨p, hp⟩ := get_of_key res.Before priceID hnb hk
      left
      simp only [findBeforePrice, hp, Option.isSome]
    · simp only [hdel, if_false] at hk
      obtain ⟨p, hp⟩ := get_of_key res.After priceID hna hk
      have hget : res.After.get priceID = some p := by
        simp only [ByID.get, hp]
        rfl
      by_cases hb : (findBeforePrice res.Before priceID).isSome = true
      · exact Or.inl hb
      · right
        simp only [currentPrice, hget, hb]
        split <;> simp
  have hdesc : formatDescription (findBeforePrice res.Before priceID)
      (currentPrice res priceID) ≠ Except.error Fault.nilDereference := by
    intro h
    obtain ⟨h1, h2⟩ := (formatDescription_nilDereference_iff _ _).mp h
    rw [h1, h2] at hpresent
    simp at hpresent
  refine ⟨hpresent, hdesc, ?_⟩
  intro pricing h
  rw [addTableRow_eq_rowOf] at h
  unfold rowOf at h
  cases hd : formatDescription (findBeforePrice res.Before priceID)
      (currentPrice res priceID) with
  | error e =>
    rw [hd] at h
    simp only at h
    cases h
    exact hdesc hd
  | ok description =>
    rw [hd] at h
    simp only at h
    cases h

/-- Witness of C17: the one key of the after map of `noDimensionExample`. -/
theorem C17_no_nil_dereference_witness :
    ((findBeforePrice noDimensionExample.Before ⟨"AmazonEC2", "EC2:t2.large"⟩).isSome = true ∨
      (currentPrice noDimensionExample ⟨"AmazonEC2", "EC2:t2.large"⟩).isSome = true) ∧
    formatDescription (findBeforePrice noDimensionExample.Before ⟨"AmazonEC2", "EC2:t2.large"⟩)
        (currentPrice noDimensionExample ⟨"AmazonEC2", "EC2:t2.large"⟩) ≠
      Except.error Fault.nilDereference ∧
    ∀ pricing : pricingTable,
      addTableRow plainLib pricing noDimensionExample ⟨"AmazonEC2", "EC2:t2.large"⟩ ≠
        Except.error Fault.nilDereference :=
  C17_no_nil_dereference plainLib noDimensionExample ⟨"AmazonEC2", "EC2:t2.large"⟩
    (by decide) (by decide) (by decide)

/-! ## Totals do not depend on the order -/

theorem sums_perm (rows rows' : List Row) (hperm : rows'.Perm rows) :
    sumHourly rows' = sumHourly rows ∧ sumMonthly rows' = sumMonthly rows ∧
      sumDelta rows' = sumDelta rows := by
  unfold sumHourly sumMonthly sumDelta
  exact ⟨((hperm.filterMap Row.costs).map _).sum_eq, ((hperm.filterMap Row.costs).map _).sum_eq,
    ((hperm.filterMap Row.costs).map _).sum_eq⟩

/-- C18: accumulating the totals is commutative over exact arithmetic. For every
resource, two enumeration orders of its price maps that resolve the same before-price
for every PriceID of the driving set end in the same `hourlyTotal`, `monthlyTotal`
and `monthlyTotalDelta`; and for every list of resources, the three totals with
which the loop of `FormatTable` ends are the same for every order of the
resources. -/
theorem C18_totals_order_independent :
    (∀ (lib : Lib) (res res' : Resource) (pricing pricing' : pricingTable),
      res'.Address = res.Address → res'.Action = res.Action →
      res'.Before.Perm res.Before → res'.After.Perm res.After → res.After.WF →
      (∀ k ∈ (if res.Action = "delete" then res.Before else res.After).keys,
        findBeforePrice res'.Before k = findBeforePrice res.Before k) →
      processResource lib pricing res = Except.ok pricing' →
      ∃ pricing'' : pricingTable,
        processResource lib pricing res' = Except.ok pricing'' ∧
        pricing''.hourlyTotal = pricing'.hourlyTotal ∧
        pricing''.monthlyTotal = pricing'.monthlyTotal ∧
        pricing''.monthlyTotalDelta = pricing'.monthlyTotalDelta) ∧
    (∀ (lib : Lib) (resources resources' : List Resource) (pricing : pricingTable),
      resources'.Perm resources →
      FormatTable lib resources = Except.ok pricing →
      ∃ pricing' : pricingTable,
        FormatTable lib resources' = Except.ok pricing' ∧
        pricing'.hourlyTotal = pricing.hourlyTotal ∧
        pricing'.monthlyTotal = pricing.monthlyTotal ∧
        pricing'.monthlyTotalDelta = pricing.monthlyTotalDelta) := by
  constructor
  · intro lib res res' pricing pricing' haddr hact hB hA hwf hfix h
    obtain ⟨rows, hblock, hfold⟩ := (processResource_iff lib res pricing pricing').mp h
    obtain ⟨rows', hblock', hperm⟩ :=
      IsBlock_perm lib res res' haddr hact hB hA hwf hfix rows hblock
    obtain ⟨s1, s2, s3⟩ := sums_perm rows rows' hperm
    refine ⟨rows'.foldl appendRow pricing,
      (processResource_iff lib res' pricing _).mpr ⟨rows', hblock', rfl⟩, ?_, ?_, ?_⟩
    · rw [hfold, foldl_appendRow, foldl_appendRow, s1]
    · rw [hfold, foldl_appendRow, foldl_appendRow, s2]
    · rw [hfold, foldl_appendRow, foldl_appendRow, s3]
  · intro lib resources resources' pricing hperm h
    obtain ⟨blocks, hblocks, hfold⟩ :=
      (foldlM_processResource_iff lib resources _ pricing).mp h
    have hcomp : (Relation.Comp List.Perm (List.Forall₂ (IsBlock lib))) resources' blocks :=
      ⟨_, hperm, hblocks⟩
    rw [← List.forall₂_comp_perm_eq_perm_comp_forall₂] at hcomp
    obtain ⟨blocks', hblocks', hpermb⟩ := hcomp
    obtain ⟨s1, s2, s3⟩ := sums_perm blocks.flatten blocks'.flatten hpermb.flatten
    refine ⟨blocks'.flatten.foldl appendRow emptyTable,
      (foldlM_processResource_iff lib resources' _ _).mpr ⟨blocks', hblocks', rfl⟩, ?_, ?_, ?_⟩
    · rw [hfold, foldl_appendRow, foldl_appendRow, s1]
      rfl
    · rw [hfold, foldl_appendRow, foldl_appendRow, s2]
      rfl
    · rw [hfold, foldl_appendRow, foldl_appendRow, s3]
      rfl

theorem processResource_deleteExample :
    processResource plainLib emptyTable deleteExample =
      Except.ok (List.foldl appendRow emptyTable
        [Row.cost "[red]-[reset] aws_instance.web" "EC2:BoxUsage" 0 0 (-(365 / 2)),
        Row.cost "[red]-[reset] aws_instance.web" "EC2:RunInstance" 0 0 (-365)]) :=
  (processResource_iff plainLib deleteExample emptyTable _).mpr
    ⟨_, (resourceRows_iff plainLib deleteExample _).mp resourceRows_deleteExample, rfl⟩

/-- Witness of C18: the two enumerations of the before map of a removed instance,
its driving set, where a PriceID outside the driving set resolves different
before-prices under the two enumerations; and the two orders of a resource without
prices and an update. -/
theorem C18_totals_order_independent_witness :
    findBeforePrice deleteExampleReversed.Before ⟨"AmazonEC2", "EC2:t2.large"⟩ ≠
      findBeforePrice deleteExample.Before ⟨"AmazonEC2", "EC2:t2.large"⟩ ∧
    (∃ pricing'' : pricingTable,
      processResource plainLib emptyTable deleteExampleReversed = Except.ok pricing'' ∧
      pricing''.hourlyTotal = (List.foldl appendRow emptyTable
        [Row.cost "[red]-[reset] aws_instance.web" "EC2:BoxUsage" 0 0 (-(365 / 2)),
        Row.cost "[red]-[reset] aws_instance.web" "EC2:RunInstance" 0 0
          (-365)]).hourlyTotal ∧
      pricing''.monthlyTotal = (List.foldl appendRow emptyTable
        [Row.cost "[red]-[reset] aws_instance.web" "EC2:BoxUsage" 0 0 (-(365 / 2)),
        Row.cost "[red]-[reset] aws_instance.web" "EC2:RunInstance" 0 0
          (-365)]).monthlyTotal ∧
      pricing''.monthlyTotalDelta = (List.foldl appendRow emptyTable
        [Row.cost "[red]-[reset] aws_instance.web" "EC2:BoxUsage" 0 0 (-(365 / 2)),
        Row.cost "[red]-[reset] aws_instance.web" "EC2:RunInstance" 0 0
          (-365)]).monthlyTotalDelta) ∧
    ∃ pricing' : pricingTable,
      FormatTable plainLib [updateExample, noPriceExample] = Except.ok pricing' ∧
      pricing'.hourlyTotal = twoResourceTable.hourlyTotal ∧
      pricing'.monthlyTotal = twoResourceTable.monthlyTotal ∧
      pricing'.monthlyTotalDelta = twoResourceTable.monthlyTotalDelta :=
  ⟨by decide,
    C18_totals_order_independent.1 plainLib deleteExample deleteExampleReversed emptyTable
      _ rfl rfl (List.reverse_perm _) (List.Perm.refl _) (by decide) (by decide)
      processResource_deleteExample,
    C18_totals_order_independent.2 plainLib [noPriceExample, updateExample]
      [updateExample, noPriceExample] twoResourceTable (List.Perm.swap _ _ _)
      FormatTable_twoResources⟩

/-! ## A change that changes nothing -/

/-- The row of a price that is the same before and after. -/
theorem rowOf_unchanged (lib : Lib) (res : Resource) (k : PriceID) (p : Price)
    (hafter : res.After.get k = some p) (hbefore : findBeforePrice res.Before k = some p) :
    rowOf lib res k =
      Except.ok (Row.cost (formatAddress lib res) p.UsageOperation
        (parsedFirstRate lib (some p)) (parsedFirstRate lib (some p) * 730) 0) := by
  have hcur : currentPrice res k = some p := by
    simp only [currentPrice, hafter, hbefore]
    split <;> simp
  simp [rowOf, hcur, hafter, hbefore, formatDescription]

theorem sumDelta_zero_rows (entries : List (PriceID × Price))
    (g : PriceID × Price → Row)
    (hg : ∀ e ∈ entries, ∃ a d h m, g e = Row.cost a d h m 0) :
    sumDelta (entries.map g) = 0 := by
  induction entries with
  | nil => simp [sumDelta]
  | cons e rest ih =>
    obtain ⟨a, d, h, m, he⟩ := hg e (List.mem_cons_self _ _)
    have hrest := ih (fun e' he' => hg e' (List.mem_cons_of_mem _ he'))
    unfold sumDelta at hrest ⊢
    rw [List.map_cons, he, List.filterMap_cons]
    simp only [Row.costs, List.map_cons, List.sum_cons, zero_add]
    exact hrest

/-- C19: for every resource, whatever its action, whose before and after maps hold
the same non-empty set of prices under distinct keys, processing it appends one row
for each PriceID of the driving set, each with monthly delta exactly `0` and with
the usage operation of the price, unchanged, as its description, and leaves
`monthlyTotalDelta` unchanged. -/
theorem C19_no_op_change (lib : Lib) (pricing : pricingTable) (res : Resource)
    (entriesB entriesA : List (PriceID × Price))
    (hB : res.Before = ByID.ofEntries entriesB) (hA : res.After = ByID.ofEntries entriesA)
    (hperm : entriesA.Perm entriesB) (hne : entriesB ≠ []) (hwf : res.Before.WF) :
    ∃ pricing' : pricingTable,
      processResource lib pricing res = Except.ok pricing' ∧
      pricing'.tableData = pricing.tableData ++
        (if res.Action = "delete" then entriesB else entriesA).map (fun e =>
          Row.cost (formatAddress lib res) e.2.UsageOperation
            (parsedFirstRate lib (some e.2)) (parsedFirstRate lib (some e.2) * 730) 0) ∧
      pricing'.monthlyTotalDelta = pricing.monthlyTotalDelta := by
  have hpermM : res.After.Perm res.Before := by
    rw [hA, hB]
    exact hperm.map _
  have hwfA : res.After.WF := WF_perm res.Before res.After hpermM hwf
  have hrowB : ∀ e ∈ entriesB, rowOf lib res e.1 =
      Except.ok (Row.cost (formatAddress lib res) e.2.UsageOperation
        (parsedFirstRate lib (some e.2)) (parsedFirstRate lib (some e.2) * 730) 0) := by
    intro e he
    have hmemB : (e.1, some e.2) ∈ res.Before := by
      rw [hB]
      exact mem_ofEntries entriesB e he
    have hmemA : (e.1, some e.2) ∈ res.After := hpermM.mem_iff.mpr hmemB
    apply rowOf_unchanged
    · simp only [ByID.get, lookup_of_mem res.After e.1 (some e.2) hwfA hmemA]
      rfl
    · simp only [findBeforePrice, lookup_of_mem res.Before e.1 (some e.2) hwf hmemB]
  have hrowA : ∀ e ∈ entriesA, rowOf lib res e.1 =
      Except.ok (Row.cost (formatAddress lib res) e.2.UsageOperation
        (parsedFirstRate lib (some e.2)) (parsedFirstRate lib (some e.2) * 730) 0) :=
    fun e he => hrowB e (hperm.mem_iff.mp he)
  have hnonempty : ¬ (res.Before.length = 0 ∧ res.After.length = 0) := by
    rintro ⟨hb, _⟩
    rw [hB] at hb
    cases entriesB with
    | nil => exact hne rfl
    | cons e rest => simp [ByID.ofEntries] at hb
  have hblock : IsBlock lib res
      ((if res.Action = "delete" then entriesB else entriesA).map (fun e =>
        Row.cost (formatAddress lib res) e.2.UsageOperation
          (parsedFirstRate lib (some e.2)) (parsedFirstRate lib (some e.2) * 730) 0)) := by
    simp only [IsBlock, hnonempty, if_false, drivingSet]
    by_cases hdel : res.Action = "delete"
    · simp only [hdel, if_true]
      rw [hB]
      exact forall₂_rowOf_entries lib res entriesB _ hrowB
    · simp only [hdel, if_false]
      rw [hA]
      exact forall₂_rowOf_entries lib res entriesA _ hrowA
  refine ⟨_, (processResource_iff lib res pricing _).mpr ⟨_, hblock, rfl⟩, ?_, ?_⟩
  · rw [foldl_appendRow]
  · rw [foldl_appendRow]
    have hzero := sumDelta_zero_rows (if res.Action = "delete" then entriesB else entriesA)
      (fun e => Row.cost (formatAddress lib res) e.2.UsageOperation
        (parsedFirstRate lib (some e.2)) (parsedFirstRate lib (some e.2) * 730) 0)
      (fun e _ => ⟨_, _, _, _, rfl⟩)
    simp only [hzero, add_zero]

/-- Witness of C19: the update of two prices to themselves. -/
theorem C19_no_op_change_witness :
    ∃ pricing' : pricingTable,
      processResource plainLib emptyTable noOpExample = Except.ok pricing' ∧
      pricing'.tableData = emptyTable.tableData ++
        (if noOpExample.Action = "delete" then
          [((⟨"AmazonEC2", "EC2:BoxUsage"⟩, ⟨"EC2:BoxUsage", [⟨"0.25"⟩]⟩) : PriceID × Price),
           (⟨"AmazonEC2", "EC2:RunInstance"⟩, ⟨"EC2:RunInstance", [⟨"0.5"⟩]⟩)]
        else
          [(⟨"AmazonEC2", "EC2:RunInstance"⟩, ⟨"EC2:RunInstance", [⟨"0.5"⟩]⟩),
           (⟨"AmazonEC2", "EC2:BoxUsage"⟩, ⟨"EC2:BoxUsage", [⟨"0.25"⟩]⟩)]).map (fun e =>
          Row.cost (formatAddress plainLib noOpExample) e.2.UsageOperation
            (parsedFirstRate plainLib (some e.2))
            (parsedFirstRate plainLib (some e.2) * 730) 0) ∧
      pricing'.monthlyTotalDelta = emptyTable.monthlyTotalDelta :=
  C19_no_op_change plainLib emptyTable noOpExample
    [(⟨"AmazonEC2", "EC2:BoxUsage"⟩, ⟨"EC2:BoxUsage", [⟨"0.25"⟩]⟩),
     (⟨"AmazonEC2", "EC2:RunInstance"⟩, ⟨"EC2:RunInstance", [⟨"0.5"⟩]⟩)]
    [(⟨"AmazonEC2", "EC2:RunInstance"⟩, ⟨"EC2:RunInstance", [⟨"0.5"⟩]⟩),
     (⟨"AmazonEC2", "EC2:BoxUsage"⟩, ⟨"EC2:BoxUsage", [⟨"0.25"⟩]⟩)]
    rfl rfl (List.Perm.swap _ _ _) (by simp) (by decide)

/-! ## The scan on an empty prefix -/

/-- C20: for every non-empty before map and every PriceID that is not a key of it
and whose usage operation is empty or begins with a colon, the prefix of the scan is
the empty string and `findBeforePrice` returns the value of an entry of the map, the
first in `range` order, whatever the usage operation of that entry is; with no nil
values in the map the result is never nil. -/
theorem C20_empty_prefix_degenerates (m : ByID) (priceID : PriceID)
    (hne : m ≠ []) (hk : priceID ∉ m.keys)
    (hop : priceID.UsageOperation = "" ∨
      ∃ rest : List Char, priceID.UsageOperation = String.mk (':' :: rest)) :
    (strings.SplitN2 priceID.UsageOperation ':').headD "" = "" ∧
    (∃ e ∈ m, m.head? = some e ∧ findBeforePrice m priceID = e.2) ∧
    ((∀ e ∈ m, e.2 ≠ none) → findBeforePrice m priceID ≠ none) := by
  have hprefix : usagePrefixOf priceID.UsageOperation = "" := by
    rcases hop with h | ⟨rest, h⟩
    · rw [h]
      rfl
    · rw [h]
      simp [usagePrefixOf]
  have hfind : ∃ e ∈ m, m.head? = some e ∧ findBeforePrice m priceID = e.2 := by
    cases m with
    | nil => exact absurd rfl hne
    | cons e rest =>
      refine ⟨e, List.mem_cons_self _ _, rfl, ?_⟩
      rw [findBeforePrice_of_not_key _ priceID hk, hprefix]
      have hp : strings.HasPrefix e.1.UsageOperation "" = true := by
        simp [strings.HasPrefix]
      simp only [List.find?, hp]
  refine ⟨by rw [SplitN2_head, hprefix], hfind, ?_⟩
  intro hnn
  obtain ⟨e, he, _, hres⟩ := hfind
  rw [hres]
  exact hnn e he

/-- Witness of C20: a query whose usage operation begins with a colon, against two
`EC2` prices, returns the first of them. -/
theorem C20_empty_prefix_degenerates_witness :
    (strings.SplitN2 ":t2.micro" ':').headD "" = "" ∧
    (∃ e ∈ twoEc2Prices, twoEc2Prices.head? = some e ∧
      findBeforePrice twoEc2Prices ⟨"AmazonRDS", ":t2.micro"⟩ = e.2) ∧
    ((∀ e ∈ twoEc2Prices, e.2 ≠ none) →
      findBeforePrice twoEc2Prices ⟨"AmazonRDS", ":t2.micro"⟩ ≠ none) :=
  C20_empty_prefix_degenerates twoEc2Prices ⟨"AmazonRDS", ":t2.micro"⟩ (by decide) (by decide)
    (Or.inr ⟨":t2.micro".data.tail, by decide⟩)

end plan
